import Mathlib

/-!
Verification development for the analytics copilot core: the schema-constrained
parser (`contracts.py`), the filter engine / metric evaluator / value formatter
(`executor.py`), and the JSON-extraction recovery routine.

Modelling conventions (shallow embedding):
* Python runtime values that flow through the parser are modelled by `PyVal`
  (the JSON-expressible universe: None, bool, int, non-integer number, str,
  list, dict).  Dict keys are assumed unique, as produced by `json.loads`.
* A raised exception (`ValidationError`, `re.error`, pandas `ValueError` /
  `TypeError`) is modelled by `Except.error ()`; normal return by `Except.ok`.
* Double-precision values are modelled by exact rationals; the NaN sentinel is
  `Option ℚ` with `none` standing for NaN.  Floating-point overflow/rounding of
  binary doubles is outside the model.
* String primitives (`strip`, `lower`, regex character classes) are modelled on
  their ASCII fragment; Python's Unicode-aware behaviour outside ASCII is not
  modelled.  `str()` of non-integer numbers and of nested containers is
  modelled up to the exact repr text, which no theorem depends on.
-/

/-! ## Python string primitives -/

/-- Whitespace characters recognised by Python's `str.strip` (ASCII fragment). -/
def pyIsSpace (c : Char) : Bool :=
  c = ' ' || c = '\t' || c = '\n' || c = '\r' || c = '\x0b' || c = '\x0c'

/-- Model of Python `str.strip()`. -/
def pyStrip (s : String) : String :=
  ⟨((s.data.dropWhile pyIsSpace).reverse.dropWhile pyIsSpace).reverse⟩

/-- Model of Python `str.lower()` (ASCII fragment). -/
def pyLower (s : String) : String :=
  ⟨s.data.map Char.toLower⟩

/-- Model of Python `str.upper()` (ASCII fragment). -/
def pyUpper (s : String) : String :=
  ⟨s.data.map Char.toUpper⟩

/-- Model of the Python slice `s[:n]` (by code points). -/
def pyTake (n : Nat) (s : String) : String :=
  ⟨s.data.take n⟩

/-! ## Python values -/

/-- The JSON-expressible universe of Python values flowing through the parser. -/
inductive PyVal where
  | none
  | bool (b : Bool)
  | int (n : Int)
  | num (q : ℚ)
  | str (s : String)
  | list (xs : List PyVal)
  | dict (kvs : List (String × PyVal))

/-- Model of `dict.get(key, default)`; on non-dicts (never reached in the
source, which checks `isinstance(..., dict)` first) it returns the default. -/
def PyVal.get (v : PyVal) (key : String) (dflt : PyVal) : PyVal :=
  match v with
  | .dict kvs =>
    match kvs.lookup key with
    | some x => x
    | Option.none => dflt
  | _ => dflt

/-- Whether a `PyVal` is a Python dict (`isinstance(x, dict)`). -/
def PyVal.isDict : PyVal → Bool
  | .dict _ => true
  | _ => false

mutual
/-- Model of Python `repr()`; the repr of strings and of non-integer numbers is
approximated (quote/escape choices are not modelled) — no theorem depends on
the exact text, only on derived facts such as nonemptiness. -/
def pyRepr : PyVal → String
  | .none => "None"
  | .bool b => if b then "True" else "False"
  | .int n => toString n
  | .num q => toString q
  | .str s => "'" ++ s ++ "'"
  | .list xs => "[" ++ pyReprList xs ++ "]"
  | .dict kvs => "\x7b" ++ pyReprDict kvs ++ "\x7d"

/-- Comma-separated reprs of a list's elements. -/
def pyReprList : List PyVal → String
  | [] => ""
  | [x] => pyRepr x
  | x :: y :: xs => pyRepr x ++ ", " ++ pyReprList (y :: xs)

/-- Comma-separated `'key': value` reprs of a dict's items. -/
def pyReprDict : List (String × PyVal) → String
  | [] => ""
  | [(k, v)] => "'" ++ k ++ "': " ++ pyRepr v
  | (k, v) :: x :: kvs => "'" ++ k ++ "': " ++ pyRepr v ++ ", " ++ pyReprDict (x :: kvs)
end

/-- Model of Python `str()`: identity on strings, `repr` otherwise. -/
def pyStr : PyVal → String
  | .str s => s
  | v => pyRepr v

/-! ## contracts.py — closed vocabularies -/

/-- The nine metric operations (`ALLOWED_OPERATIONS` in `contracts.py`). -/
def ALLOWED_OPERATIONS : List String :=
  ["count", "sum", "mean", "median", "min", "max", "nunique", "ratio", "pct"]

/-- The seven base aggregates (`ALLOWED_BASE_OPERATIONS`). -/
def ALLOWED_BASE_OPERATIONS : List String :=
  ["count", "sum", "mean", "median", "min", "max", "nunique"]

/-- The eight filter operators (`ALLOWED_FILTER_OPS`). -/
def ALLOWED_FILTER_OPS : List String :=
  ["eq", "neq", "gt", "gte", "lt", "lte", "in", "contains"]

/-- The allowed plan intents (`ALLOWED_INTENTS`). -/
def ALLOWED_INTENTS : List String :=
  ["summary", "comparison", "trend", "anomaly", "distribution", "breakdown"]

/-- The allowed chart types (`ALLOWED_CHART_TYPES`). -/
def ALLOWED_CHART_TYPES : List String :=
  ["bar", "line", "scatter", "table", "none"]

/-- The character class of `_COLUMN_RE = ^[\w\s\-\(\)%./:]+$` (ASCII fragment
of `\w` and `\s`). -/
def columnClassChar (c : Char) : Bool :=
  c.isAlphanum || c = '_' || pyIsSpace c ||
    c = '-' || c = '(' || c = ')' || c = '%' || c = '.' || c = '/' || c = ':'

/-- Model of `_COLUMN_RE.match(col)`: one or more characters of the class. -/
def matchesColumnRe (s : String) : Bool :=
  !s.data.isEmpty && s.data.all columnClassChar

/-! ## contracts.py — validation -/

/-- Model of `_validate_column`: rejects non-strings, blank strings, names
outside the character class, and (when a known-column list is supplied) names
not in that list; returns the stripped name. -/
def validate_column (column : PyVal) (columns : Option (List String)) :
    Except Unit String :=
  match column with
  | .str s =>
    if pyStrip s = "" then .error ()
    else
      let col := pyStrip s
      if !matchesColumnRe col then .error ()
      else
        match columns with
        | some cs => if col ∈ cs then .ok col else .error ()
        | Option.none => .ok col
  | _ => .error ()

/-- A normalized filter clause, the `{"column":…, "op":…, "value":…}` dict
built by `_normalize_where`. -/
structure WhereClause where
  column : String
  op : String
  value : PyVal

/-- Model of one iteration of the `_normalize_where` loop: a where item must
be a dict with a valid column and an op in the eight-op enum; otherwise a
`ValidationError` is raised. -/
def normalize_where_item (item : PyVal) (columns : Option (List String)) :
    Except Unit WhereClause :=
  match item with
  | .dict _ =>
    match validate_column (item.get "column" .none) columns with
    | .error e => .error e
    | .ok col =>
      let op := pyLower (pyStrip (pyStr (item.get "op" (.str "eq"))))
      if op ∈ ALLOWED_FILTER_OPS then
        .ok ⟨col, op, item.get "value" .none⟩
      else .error ()
  | _ => .error ()

/-- The `_normalize_where` loop over the items of a where list: normalized in
order, the first failure raising. -/
def normalize_where_list (items : List PyVal) (columns : Option (List String)) :
    Except Unit (List WhereClause) :=
  match items with
  | [] => .ok []
  | v :: vs =>
    match normalize_where_item v columns with
    | .error e => .error e
    | .ok w =>
      match normalize_where_list vs columns with
      | .error e => .error e
      | .ok ws => .ok (w :: ws)

/-- Model of `_normalize_where`: `None` becomes `[]`, non-lists raise, and the
items are normalized in order with the first failure raising. -/
def normalize_where (raw_where : PyVal) (columns : Option (List String)) :
    Except Unit (List WhereClause) :=
  match raw_where with
  | .none => .ok []
  | .list items => normalize_where_list items columns
  | _ => .error ()

/-- A parsed ratio/pct operand, the `{"operation":…, "column":…, "where":…}`
dict built by `_parse_operand`. -/
structure Operand where
  operation : String
  column : Option String
  where_ : List WhereClause

/-- Model of `_parse_operand`: operands must be dicts whose operation is a base
aggregate; the column is validated when present; the where list is normalized. -/
def parse_operand (raw : PyVal) (columns : Option (List String)) :
    Except Unit Operand :=
  match raw with
  | .dict _ =>
    let op := pyLower (pyStrip (pyStr (raw.get "operation" (.str "count"))))
    if op ∉ ALLOWED_BASE_OPERATIONS then .error ()
    else
      match raw.get "column" .none with
      | .none =>
        match normalize_where (raw.get "where" (.list [])) columns with
        | .error e => .error e
        | .ok w => .ok ⟨op, Option.none, w⟩
      | c =>
        match validate_column c columns with
        | .error e => .error e
        | .ok col =>
          match normalize_where (raw.get "where" (.list [])) columns with
          | .error e => .error e
          | .ok w => .ok ⟨op, some col, w⟩
  | _ => .error ()

/-- The validated metric specification (`MetricSpec` dataclass). -/
structure MetricSpec where
  name : String
  operation : String
  column : Option String
  numerator : Option Operand
  denominator : Option Operand
  where_ : List WhereClause
  format : String
  help_text : String

/-- The six accepted format hints of `parse_metric_spec`. -/
def FORMAT_HINTS : List String :=
  ["auto", "number", "currency", "percent", "days", "integer"]

/-- The `column = raw.get("column"); _validate_column(column, columns) if
column is not None else None` step shared by `parse_metric_spec` and
`_parse_operand`. -/
def parse_optional_column (raw : PyVal) (columns : Option (List String)) :
    Except Unit (Option String) :=
  match raw.get "column" .none with
  | .none => .ok Option.none
  | c =>
    match validate_column c columns with
    | .error e => .error e
    | .ok col => .ok (some col)

/-- The numerator/denominator step of `parse_metric_spec`: both operands are
parsed exactly when the operation is ratio or pct. -/
def parse_ratio_operands (raw : PyVal) (columns : Option (List String))
    (operation : String) : Except Unit (Option Operand × Option Operand) :=
  if operation = "ratio" ∨ operation = "pct" then
    match parse_operand (raw.get "numerator" .none) columns with
    | .error e => .error e
    | .ok n =>
      match parse_operand (raw.get "denominator" .none) columns with
      | .error e => .error e
      | .ok d => .ok (some n, some d)
  else .ok (Option.none, Option.none)

/-- Model of `parse_metric_spec`: a metric spec must be a dict with a nonempty
trimmed name, an operation in the nine-op enum, a validated optional column, a
normalized where list, operands exactly for ratio/pct, a format hint falling
back to `auto`, and bounded help text. -/
def parse_metric_spec (raw : PyVal) (columns : Option (List String)) :
    Except Unit MetricSpec :=
  match raw with
  | .dict _ =>
    let name := pyTake 64 (pyStrip (pyStr (raw.get "name" (.str "Metric"))))
    if name = "" then .error ()
    else
      let operation := pyLower (pyStrip (pyStr (raw.get "operation" (.str "count"))))
      if operation ∉ ALLOWED_OPERATIONS then .error ()
      else
        match parse_optional_column raw columns with
        | .error e => .error e
        | .ok parsed_column =>
          match normalize_where (raw.get "where" (.list [])) columns with
          | .error e => .error e
          | .ok wh =>
            match parse_ratio_operands raw columns operation with
            | .error e => .error e
            | .ok nd =>
              let format_hint0 := pyLower (pyStrip (pyStr (raw.get "format" (.str "auto"))))
              let format_hint := if format_hint0 ∈ FORMAT_HINTS then format_hint0 else "auto"
              let help_text := pyTake 160 (pyStrip (pyStr (raw.get "help_text" (.str ""))))
              .ok ⟨name, operation, parsed_column, nd.1, nd.2, wh, format_hint, help_text⟩
  | _ => .error ()

/-- The validated query plan (`CopilotQueryPlan` dataclass). -/
structure CopilotQueryPlan where
  question : String
  intent : String
  metrics : List MetricSpec
  dimensions : List String
  filters : List WhereClause
  time_grain : Option String
  chart_type : String
  explanation_focus : Option String
  assumptions : List String
  raw_plan : PyVal

/-- The synthesized fallback metric of `parse_query_plan`
(`MetricSpec(name="Record Count", operation="count", column=None)` with the
dataclass defaults for the remaining fields). -/
def recordCountMetric : MetricSpec :=
  ⟨"Record Count", "count", Option.none, Option.none, Option.none, [], "auto", ""⟩

/-- Model of `parse_query_plan`: the payload must be a dict and its `metrics`
field a list; the first six metric entries are try-parsed and failures are
dropped, with a synthesized `Record Count` metric when none survive; the first
two dimensions are validated with failures dropped; plan-level `filters` are
normalized (a failure there raises); the remaining fields are defaulted
field-by-field. -/
def parse_query_plan (payload : PyVal) (columns : Option (List String)) :
    Except Unit CopilotQueryPlan :=
  match payload with
  | .dict _ =>
    let question := pyTake 500 (pyStrip (pyStr (payload.get "question" (.str ""))))
    let intent0 := pyLower (pyStrip (pyStr (payload.get "intent" (.str "summary"))))
    let intent := if intent0 ∈ ALLOWED_INTENTS then intent0 else "summary"
    match payload.get "metrics" (.list []) with
    | .list raw_metrics =>
      let parsed := (raw_metrics.take 6).filterMap
        (fun r => (parse_metric_spec r columns).toOption)
      let metrics := if parsed.isEmpty then [recordCountMetric] else parsed
      let dimensions :=
        match payload.get "dimensions" (.list []) with
        | .list ds => (ds.take 2).filterMap (fun d => (validate_column d columns).toOption)
        | _ => []
      match normalize_where (payload.get "filters" (.list [])) columns with
      | .error e => .error e
      | .ok filters =>
        let time_grain :=
          match payload.get "time_grain" .none with
          | .str s => some (pyTake 4 (pyUpper (pyStrip s)))
          | _ => Option.none
        let ct0 := pyLower (pyStrip (pyStr (payload.get "chart_type" (.str "table"))))
        let chart_type := if ct0 ∈ ALLOWED_CHART_TYPES then ct0 else "table"
        let explanation_focus :=
          match payload.get "explanation_focus" .none with
          | .str s => some (pyTake 120 (pyStrip s))
          | _ => Option.none
        let assumptions :=
          match payload.get "assumptions" (.list []) with
          | .list xs => (xs.take 3).filterMap (fun it =>
              let s := pyStrip (pyStr it)
              if s = "" then Option.none else some (pyTake 120 s))
          | _ => []
        .ok ⟨question, intent, metrics, dimensions, filters, time_grain,
             chart_type, explanation_focus, assumptions, payload⟩
    | _ => .error ()
  | _ => .error ()

/-! ## executor.py — data model -/

/-- A scalar cell value of a tabular dataset. -/
inductive CellValue where
  | null
  | bool (b : Bool)
  | num (q : ℚ)
  | str (s : String)
deriving DecidableEq

/-- A row is an association of column names to cells; absent entries read as
null. -/
abbrev Row := List (String × CellValue)

/-- A tabular dataset: its column list and its rows. -/
structure DataFrame where
  cols : List String
  rows : List Row

/-- Cell lookup within a row (missing entries are null). -/
def cellAt (r : Row) (c : String) : CellValue :=
  match r.lookup c with
  | some v => v
  | Option.none => .null

/-- Model of a numeric-string parse as performed by `pd.to_numeric` /
`float()` on decimal literals: optional sign, digits with an optional
fractional part and exponent, surrounding whitespace allowed.  `inf`/`nan`
literals and underscore separators are not modelled. -/
def parseNumStr (s : String) : Option ℚ :=
  let cs := (s.data.dropWhile pyIsSpace).reverse.dropWhile pyIsSpace |>.reverse
  let (sign, cs1) : ℚ × List Char :=
    match cs with
    | '-' :: r => (-1, r)
    | '+' :: r => (1, r)
    | _ => (1, cs)
  let ip := cs1.takeWhile Char.isDigit
  let rest1 := cs1.dropWhile Char.isDigit
  let (fp, rest2) : List Char × List Char :=
    match rest1 with
    | '.' :: r => (r.takeWhile Char.isDigit, r.dropWhile Char.isDigit)
    | _ => ([], rest1)
  if ip.isEmpty ∧ fp.isEmpty then Option.none
  else
    let mantissa : ℚ :=
      ((ip ++ fp).foldl (fun a c => a * 10 + (c.toNat - 48)) 0 : ℕ)
    let base : ℚ := mantissa / ((10 : ℚ) ^ fp.length)
    match rest2 with
    | [] => some (sign * base)
    | e :: r3 =>
      if e = 'e' ∨ e = 'E' then
        let (esign, r4) : Bool × List Char :=
          match r3 with
          | '-' :: r => (true, r)
          | '+' :: r => (false, r)
          | _ => (false, r3)
        let ed := r4.takeWhile Char.isDigit
        if ed.isEmpty ∨ !(r4.dropWhile Char.isDigit).isEmpty then Option.none
        else
          let ex : ℕ := ed.foldl (fun a c => a * 10 + (c.toNat - 48)) 0
          some (sign * base * (if esign then ((10 : ℚ) ^ ex)⁻¹ else (10 : ℚ) ^ ex))
      else Option.none

/-- Numeric coercion of a cell (`pd.to_numeric(series, errors="coerce")`):
nulls and unparseable strings coerce to NaN (`none`), booleans to 0/1. -/
def cellToNum : CellValue → Option ℚ
  | .null => Option.none
  | .bool b => some (if b then 1 else 0)
  | .num q => some q
  | .str s => parseNumStr s

/-- String coercion of a cell after `fillna("")` (`astype(str)`); the text of
numeric cells is approximated, no theorem depends on it. -/
def cellToPyString : CellValue → String
  | .null => ""
  | .bool b => if b then "True" else "False"
  | .num q => toString q
  | .str s => s

/-- Python `==` between a cell and a scalar filter value: numbers, booleans and
ints compare numerically across types, strings compare to strings, and a
null cell compares unequal (NaN semantics; pandas' object-dtype `None`
comparisons are not distinguished, no theorem depends on them). -/
def pyEqCell (cell : CellValue) (v : PyVal) : Bool :=
  match cell, v with
  | .null, _ => false
  | .str s, .str t => s = t
  | .str _, _ => false
  | .num q, .int n => q = (n : ℚ)
  | .num q, .num p => q = p
  | .num q, .bool b => q = (if b then 1 else 0)
  | .num _, _ => false
  | .bool b, .bool c => b = c
  | .bool b, .int n => (if b then (1 : ℚ) else 0) = (n : ℚ)
  | .bool b, .num p => (if b then (1 : ℚ) else 0) = p
  | .bool _, _ => false

/-- Membership test used by `Series.isin`: like `pyEqCell` but a null cell
matches a `None` option (pandas treats NaN/None in the value list as matching
missing cells). -/
def pyIsinCell (cell : CellValue) (v : PyVal) : Bool :=
  match cell, v with
  | .null, .none => true
  | _, _ => pyEqCell cell v

/-- Numeric coercion of a comparison filter value
(`pd.to_numeric(pd.Series([val]), errors="coerce").iloc[0]`): scalars coerce
(unparseable strings to NaN); nested lists/dicts are modelled as raising, as
pandas does for nested objects. -/
def filterValToNum : PyVal → Except Unit (Option ℚ)
  | .none => .ok Option.none
  | .bool b => .ok (some (if b then 1 else 0))
  | .int n => .ok (some (n : ℚ))
  | .num q => .ok (some q)
  | .str s => .ok (parseNumStr s)
  | .list _ => .error ()
  | .dict _ => .error ()

/-! ## executor.py — the contains filter is a regex search

`apply_where_filters` evaluates `contains` with
`series.fillna("").astype(str).str.contains(needle, case=False, na=False)`.
pandas' `str.contains` compiles the needle as a regular expression
(`regex=True` is the default), with `re.IGNORECASE` for `case=False`.  The
model covers the fragment of Python's regex language consisting of literal
characters and the `.` wildcard (which matches any character except a
newline); every other metacharacter is modelled as a compile error.  This is
exact for literal needles, for needles containing `.`, and for unbalanced
`(`/`)`/`[` (which raise `re.error` in Python); it is stricter than Python
for quantifier metacharacters such as `*`, which only narrows the success
hypotheses of the theorems below. -/

/-- A compiled token of the modelled regex fragment. -/
inductive RegexTok where
  | lit (c : Char)
  | anyChar
deriving DecidableEq

/-- Metacharacters of Python's regex language outside the modelled fragment. -/
def regexMetaChar (c : Char) : Bool :=
  c = '^' || c = '$' || c = '*' || c = '+' || c = '?' || c = '\\' ||
  c = '[' || c = ']' || c = '(' || c = ')' || c = '|' || c = '\x7b' || c = '\x7d'

/-- Compile a needle into regex tokens; metacharacters outside the fragment
are a compile error (`re.error` for the unbalanced ones in Python). -/
def compilePyRegex (pat : String) : Except Unit (List RegexTok) :=
  pat.data.mapM fun c =>
    if c = '.' then .ok RegexTok.anyChar
    else if regexMetaChar c then .error ()
    else .ok (RegexTok.lit c)

/-- Case-insensitive match of the token list against a prefix of the text
(`.` does not match a newline). -/
def tokensMatchPrefix : List RegexTok → List Char → Bool
  | [], _ => true
  | _ :: _, [] => false
  | .lit c :: ts, d :: ds => (c.toLower = d.toLower) && tokensMatchPrefix ts ds
  | .anyChar :: ts, d :: ds => (d ≠ '\n') && tokensMatchPrefix ts ds

/-- Model of `re.search`: the pattern matches at some start position. -/
def regexSearch (ts : List RegexTok) (cs : List Char) : Bool :=
  (cs.tails).any (tokensMatchPrefix ts)

/-! ## executor.py — filter engine -/

/-- Per-clause row mask of `apply_where_filters`: one boolean per row, or an
exception.  Unknown operators yield an all-true mask. -/
def clauseMask (rows : List Row) (col : String) (op : String) (val : PyVal) :
    Except Unit (List Bool) :=
  if op = "eq" then
    match val with
    | .list vs =>
      if vs.length = rows.length then
        .ok ((rows.zip vs).map (fun rv => pyEqCell (cellAt rv.1 col) rv.2))
      else .error ()
    | .dict _ => .error ()
    | v => .ok (rows.map (fun r => pyEqCell (cellAt r col) v))
  else if op = "neq" then
    match val with
    | .list vs =>
      if vs.length = rows.length then
        .ok ((rows.zip vs).map (fun rv =>
          match cellAt rv.1 col with
          | .null => true
          | c => !pyEqCell c rv.2))
      else .error ()
    | .dict _ => .error ()
    | v => .ok (rows.map (fun r =>
        match cellAt r col with
        | .null => true
        | c => !pyEqCell c v))
  else if op = "gt" ∨ op = "gte" ∨ op = "lt" ∨ op = "lte" then
    match filterValToNum val with
    | .error e => .error e
    | .ok Option.none => .ok (rows.map (fun _ => false))
    | .ok (some q) =>
      .ok (rows.map (fun r =>
        match cellToNum (cellAt r col) with
        | Option.none => false
        | some x =>
          if op = "gt" then decide (x > q)
          else if op = "gte" then decide (x ≥ q)
          else if op = "lt" then decide (x < q)
          else decide (x ≤ q)))
  else if op = "in" then
    let options := match val with | .list vs => vs | v => [v]
    if options.any (fun o => o.isDict || match o with | .list _ => true | _ => false) then
      .error ()
    else .ok (rows.map (fun r => options.any (pyIsinCell (cellAt r col))))
  else if op = "contains" then
    let needle := match val with | .none => "" | v => pyStr v
    match compilePyRegex needle with
    | .error e => .error e
    | .ok ts => .ok (rows.map (fun r =>
        regexSearch ts (cellToPyString (cellAt r col)).data))
  else .ok (rows.map (fun _ => true))

/-- Model of `apply_where_filters`: clauses applied in order, each narrowing
the surviving rows; clauses naming unknown columns are skipped. -/
def apply_where_filters (df : DataFrame) (wh : List WhereClause) :
    Except Unit DataFrame :=
  wh.foldlM (fun out flt =>
    if flt.column ∈ out.cols then
      match clauseMask out.rows flt.column flt.op flt.value with
      | .error e => .error e
      | .ok mask =>
        pure ⟨out.cols, ((out.rows.zip mask).filterMap
          (fun rb => if rb.2 then some rb.1 else Option.none))⟩
    else pure out) df

/-! ## executor.py — metric evaluator -/

/-- Sorted-median of a list of rationals (pandas `median`): NaN on empty. -/
def medianQ (xs : List ℚ) : Option ℚ :=
  match xs with
  | [] => Option.none
  | _ =>
    let sorted := xs.mergeSort (· ≤ ·)
    let n := xs.length
    if n % 2 = 1 then some (sorted.getD (n / 2) 0)
    else some ((sorted.getD (n / 2 - 1) 0 + sorted.getD (n / 2) 0) / 2)

/-- Key under which `nunique` deduplicates raw values (Python equality
identifies booleans with 0/1). -/
def cellKey : CellValue → CellValue
  | .bool b => .num (if b then 1 else 0)
  | v => v

/-- Model of `_run_base_operation`: `count` counts rows (or non-null cells of
a named column); the numeric aggregates coerce and drop nulls, yielding NaN
on an unknown/absent column or (except `sum`) on an empty column. -/
def run_base_operation (df : DataFrame) (operation : String)
    (column : Option String) : Option ℚ :=
  if operation = "count" then
    match column with
    | some c =>
      if c ≠ "" ∧ c ∈ df.cols then
        some ((df.rows.filter (fun r => cellAt r c ≠ .null)).length : ℕ)
      else some (df.rows.length : ℕ)
    | Option.none => some (df.rows.length : ℕ)
  else
    match column with
    | Option.none => Option.none
    | some c =>
      if c = "" ∨ c ∉ df.cols then Option.none
      else
        let series := (df.rows.map (fun r => cellAt r c)).filter (· ≠ .null)
        let nums := series.filterMap cellToNum
        if operation = "sum" then some nums.sum
        else if operation = "mean" then
          if nums.isEmpty then Option.none else some (nums.sum / (nums.length : ℕ))
        else if operation = "median" then medianQ nums
        else if operation = "min" then nums.foldr (fun x m =>
          match m with | Option.none => some x | some y => some (min x y)) Option.none
        else if operation = "max" then nums.foldr (fun x m =>
          match m with | Option.none => some x | some y => some (max x y)) Option.none
        else if operation = "nunique" then some (((series.map cellKey).dedup).length : ℕ)
        else Option.none

/-- Model of `_evaluate_operand`: a missing operand is NaN; otherwise the
operand's own where scope is applied and its base aggregate computed. -/
def evaluate_operand (df : DataFrame) (operand : Option Operand) :
    Except Unit (Option ℚ) :=
  match operand with
  | Option.none => .ok Option.none
  | some op =>
    match apply_where_filters df op.where_ with
    | .error e => .error e
    | .ok scdf => .ok (run_base_operation scdf op.operation op.column)

/-- Model of `evaluate_metric`: the metric's own where scope is applied, then
base aggregates run directly; ratio/pct evaluate both operands in that scope,
return NaN when the denominator is 0 or NaN, and otherwise divide (times 100
for pct); any other operation yields NaN. -/
def evaluate_metric (df : DataFrame) (spec : MetricSpec) :
    Except Unit (Option ℚ) :=
  match apply_where_filters df spec.where_ with
  | .error e => .error e
  | .ok scdf =>
    if spec.operation ∈ ["count", "sum", "mean", "median", "min", "max", "nunique"] then
      .ok (run_base_operation scdf spec.operation spec.column)
    else if spec.operation = "ratio" ∨ spec.operation = "pct" then
      match evaluate_operand scdf spec.numerator with
      | .error e => .error e
      | .ok num =>
        match evaluate_operand scdf spec.denominator with
        | .error e => .error e
        | .ok den =>
          match den with
          | Option.none => .ok Option.none
          | some d =>
            if d = 0 then .ok Option.none
            else
              match num with
              | Option.none => .ok Option.none
              | some n =>
                .ok (some (n / d * (if spec.operation = "pct" then 100 else 1)))
    else .ok Option.none

/-! ## executor.py — value formatter -/

/-- Python's `round` / format rounding: round half to even. -/
def roundHalfEven (q : ℚ) : ℤ :=
  let f := ⌊q⌋
  let r := q - (f : ℚ)
  if r < 1 / 2 then f
  else if 1 / 2 < r then f + 1
  else if f % 2 = 0 then f else f + 1

/-- The decimal digit character of `n % 10`. -/
def digitChar10 (n : ℕ) : Char := Char.ofNat (48 + n % 10)

/-- Decimal digits, least significant first, with explicit fuel (the fuel is
irrelevant once it exceeds the number; see `natDigitsRev_eq`). -/
def natDigitsRevAux : ℕ → ℕ → List Char
  | 0, _ => []
  | fuel + 1, n =>
    if n < 10 then [digitChar10 n]
    else digitChar10 (n % 10) :: natDigitsRevAux fuel (n / 10)

/-- Decimal digits of a natural number, least significant first. -/
def natDigitsRev (n : ℕ) : List Char := natDigitsRevAux (n + 1) n

/-- Decimal digits of a natural number, most significant first. -/
def natDigits (n : ℕ) : List Char := (natDigitsRev n).reverse

/-- Thousands grouping over a reversed digit list: a comma after every third
digit. -/
def group3Rev : List Char → List Char
  | d₁ :: d₂ :: d₃ :: d₄ :: rest => d₁ :: d₂ :: d₃ :: ',' :: group3Rev (d₄ :: rest)
  | ds => ds

/-- Thousands grouping of a most-significant-first digit list (Python's `,`
format flag). -/
def groupDigits (ds : List Char) : List Char := (group3Rev ds.reverse).reverse

/-- Model of the f-string `f"{v:,.df}"`: fixed-point rendering with `d`
decimals, half-even rounding and thousands grouping (exact-rational rounding;
the binary-double artefacts of CPython's float formatting are outside the
model). -/
def formatFixed (q : ℚ) (d : ℕ) : String :=
  let neg := q < 0
  let n : ℕ := (roundHalfEven (|q| * (10 : ℚ) ^ d)).toNat
  let intStr := groupDigits (natDigits (n / 10 ^ d))
  let fracDs := natDigits (n % 10 ^ d)
  let fracStr := List.replicate (d - fracDs.length) '0' ++ fracDs
  ⟨(if neg then ['-'] else []) ++ intStr ++ (if d = 0 then [] else '.' :: fracStr)⟩

/-- Model of the f-string `f"{int(round(v)):,}"`. -/
def formatIntGrouped (q : ℚ) : String :=
  let r := roundHalfEven q
  ⟨(if r < 0 then ['-'] else []) ++ groupDigits (natDigits r.natAbs)⟩

/-- Model of `format_metric_value`: NaN/None renders as "N/A"; the named
hints render with their fixed shapes; otherwise (including the `auto` and
`number` hints) the magnitude-adaptive auto rendering applies. -/
def format_metric_value (value : Option ℚ) (fmt : String) : String :=
  match value with
  | Option.none => "N/A"
  | some v =>
    if fmt = "integer" then formatIntGrouped v
    else if fmt = "currency" then "$" ++ formatFixed v 2
    else if fmt = "percent" then formatFixed v 2 ++ "%"
    else if fmt = "days" then formatFixed v 1 ++ " days"
    else if |v| ≥ 100 then formatFixed v 0
    else if |v| ≥ 1 then formatFixed v 2
    else formatFixed v 4

/-! ## Concrete fixtures -/

/-- A one-row dataset whose only cell is the string "x". -/
def dfC : DataFrame := ⟨["c"], [[("c", CellValue.str "x")]]⟩

/-- A count metric whose where clause is `contains` with the value "(". -/
def specParen : MetricSpec :=
  ⟨"Bad", "count", Option.none, Option.none, Option.none,
   [⟨"c", "contains", PyVal.str "("⟩], "auto", ""⟩

/-- A count metric whose where clause is `contains` with the value ".". -/
def specDot : MetricSpec :=
  ⟨"Dot", "count", Option.none, Option.none, Option.none,
   [⟨"c", "contains", PyVal.str "."⟩], "auto", ""⟩

/-- The spec's documented contains semantics: case-insensitive substring. -/
def specContainsCI (needle hay : String) : Prop :=
  ((pyLower hay).data.tails).any
    (fun t => (pyLower needle).data.isPrefixOf t) = true

/-! ## Shared validation lemmas -/

/-- The normalized operation string of a raw metric spec. -/
def rawOperationOf (raw : PyVal) : String :=
  pyLower (pyStrip (pyStr (raw.get "operation" (PyVal.str "count"))))


theorem validate_column_not_known (s : String) (known : List String)
    (h : pyStrip s ∉ known) :
    validate_column (.str s) (some known) = .error () := by
  simp only [validate_column]
  split_ifs with h1 h2
  · rfl
  · rfl
  · simp [h]

theorem validate_column_bad_class (s : String) (cols : Option (List String))
    (h : pyStrip s = "" ∨ ∃ c ∈ (pyStrip s).data, columnClassChar c = false) :
    validate_column (.str s) cols = .error () := by
  simp only [validate_column]
  rcases h with h | ⟨c, hc, hcls⟩
  · simp [h]
  · have hm : matchesColumnRe (pyStrip s) = false := by
      unfold matchesColumnRe
      have hall : (pyStrip s).data.all columnClassChar = false := by
        rw [List.all_eq_false]
        exact ⟨c, hc, by simp [hcls]⟩
      simp [hall]
    split_ifs with h1 h2
    · rfl
    · rfl
    · simp [hm] at h2

theorem parse_metric_spec_bad_operation (kvs : List (String × PyVal))
    (cols : Option (List String))
    (hop : rawOperationOf (.dict kvs) ∉ ALLOWED_OPERATIONS) :
    parse_metric_spec (.dict kvs) cols = .error () := by
  have hop' : pyLower (pyStrip (pyStr ((PyVal.dict kvs).get "operation" (PyVal.str "count"))))
      ∉ ALLOWED_OPERATIONS := by simpa [rawOperationOf] using hop
  simp only [parse_metric_spec]
  by_cases h1 : pyTake 64 (pyStrip (pyStr ((PyVal.dict kvs).get "name" (PyVal.str "Metric")))) = ""
  · rw [if_pos h1]
  · rw [if_neg h1, if_pos hop']

theorem parse_metric_spec_where_error (kvs : List (String × PyVal))
    (cols : Option (List String))
    (hw : normalize_where ((PyVal.dict kvs).get "where" (.list [])) cols = .error ()) :
    parse_metric_spec (.dict kvs) cols = .error () := by
  simp only [parse_metric_spec]
  by_cases h1 : pyTake 64 (pyStrip (pyStr ((PyVal.dict kvs).get "name" (PyVal.str "Metric")))) = ""
  · rw [if_pos h1]
  · rw [if_neg h1]
    by_cases h2 : pyLower (pyStrip (pyStr ((PyVal.dict kvs).get "operation" (PyVal.str "count"))))
        ∉ ALLOWED_OPERATIONS
    · rw [if_pos h2]
    · rw [if_neg h2]
      cases hcol : parse_optional_column (PyVal.dict kvs) cols with
      | error e => rfl
      | ok pc => rw [hw]

/-- A where item is invalid in the sense of the validation table: not an
object, or its op outside the eight-op enum, or its column rejected. -/
def invalidWhereItem (v : PyVal) (cols : Option (List String)) : Prop :=
  v.isDict = false ∨
  pyLower (pyStrip (pyStr (v.get "op" (.str "eq")))) ∉ ALLOWED_FILTER_OPS ∨
  validate_column (v.get "column" .none) cols = .error ()

theorem normalize_where_item_bad (v : PyVal) (cols : Option (List String))
    (h : invalidWhereItem v cols) : normalize_where_item v cols = .error () := by
  rcases h with h | h | h
  · cases v <;> first | rfl | simp [PyVal.isDict] at h
  · cases v <;> try rfl
    case dict kvs =>
      simp only [normalize_where_item]
      cases hv : validate_column ((PyVal.dict kvs).get "column" .none) cols with
      | error e => rfl
      | ok col =>
        simp only [hv]
        rw [if_neg h]
  · cases v <;> try rfl
    case dict kvs =>
      simp only [normalize_where_item, h]

theorem normalize_where_list_error (items : List PyVal) (cols : Option (List String))
    (h : ∃ v ∈ items, normalize_where_item v cols = .error ()) :
    normalize_where_list items cols = .error () := by
  induction items with
  | nil => rcases h with ⟨v, hv, _⟩; cases hv
  | cons a as ih =>
    rcases h with ⟨v, hv, herr⟩
    rcases List.mem_cons.mp hv with rfl | hmem
    · simp only [normalize_where_list, herr]
    · cases ha : normalize_where_item a cols with
      | error e => simp only [normalize_where_list, ha]
      | ok w =>
        simp only [normalize_where_list, ha]
        rw [ih ⟨v, hmem, herr⟩]

/-- C2 (amended): an invalid item in a metric's where list — one that is not
an object, or whose op is outside the eight-op enum, or whose column is
absent/invalid — causes `parse_metric_spec` to reject the whole metric spec
with a `ValidationError`; no clause is individually dropped. -/
theorem C2_invalid_where_rejects_metric (raw : PyVal) (cols : Option (List String))
    (items : List PyVal) (hd : raw.isDict = true)
    (hw : raw.get "where" (.list []) = .list items)
    (hbad : ∃ v ∈ items, invalidWhereItem v cols) :
    parse_metric_spec raw cols = .error () := by
  cases raw <;> simp [PyVal.isDict] at hd
  case dict kvs =>
    apply parse_metric_spec_where_error
    rw [hw]
    simp only [normalize_where]
    rcases hbad with ⟨v, hv, hbadv⟩
    exact normalize_where_list_error items cols
      ⟨v, hv, normalize_where_item_bad v cols hbadv⟩

/-- C2 counterexample: a metric spec with a valid name and operation whose
where list holds the non-object item `5`; the claim predicts the clause is
dropped and the metric still parses, but the code rejects the whole metric. -/
theorem C2_counterexample :
    parse_metric_spec
      (.dict [("name", .str "M"), ("operation", .str "count"),
              ("where", .list [PyVal.int 5])]) Option.none = .error () := by
  with_unfolding_all rfl

/-- C2 witness: the amended theorem applied to a concrete metric spec whose
where list holds an object with an op outside the eight-op enum. -/
theorem C2_witness :
    parse_metric_spec
      (.dict [("name", .str "M"),
              ("where", .list [.dict [("column", .str "c"), ("op", .str "matches")]])])
      Option.none = .error () :=
  C2_invalid_where_rejects_metric _ _ [.dict [("column", .str "c"), ("op", .str "matches")]]
    rfl rfl ⟨_, List.mem_singleton_self _, Or.inr (Or.inl (by decide))⟩

/-- C1: refutation of totality at a concrete failing input.  A parser-valid
count metric whose where clause is `contains` with the value `"("` makes
`evaluate_metric` raise (pandas compiles the needle as a regex and `re.error`
escapes), instead of returning a value or the NaN sentinel. -/
theorem C1_totality_failure : evaluate_metric dfC specParen = .error () := by
  with_unfolding_all rfl

/-- C3: refutation of the contains-filter semantics at a concrete failing
input.  The needle "." is not a substring of the cell "x", so the claim keeps
no rows, but the code treats the needle as a regex wildcard and keeps the
row (count 1). -/
theorem C3_contains_semantics_failure :
    ¬ specContainsCI "." "x" ∧ evaluate_metric dfC specDot = .ok (some 1) :=
  ⟨by unfold specContainsCI; decide, by with_unfolding_all rfl⟩

/-- C7 (amended): injection safety.  (1) `parse_metric_spec` rejects every
raw metric spec whose normalized operation string is outside the nine-op
enum.  (2) `evaluate_metric` on a spec whose operation is outside the enum
returns the NaN sentinel, provided its where filters evaluate without
raising (it does run the where filters first, and a regex-invalid contains
needle there raises). -/
theorem C7_injection_safety :
    (∀ (raw : PyVal) (cols : Option (List String)), raw.isDict = true →
        rawOperationOf raw ∉ ALLOWED_OPERATIONS →
        parse_metric_spec raw cols = .error ()) ∧
    (∀ (df : DataFrame) (spec : MetricSpec) (scdf : DataFrame),
        spec.operation ∉ ALLOWED_OPERATIONS →
        apply_where_filters df spec.where_ = .ok scdf →
        evaluate_metric df spec = .ok Option.none) := by
  constructor
  · intro raw cols hd hop
    cases raw <;> simp [PyVal.isDict] at hd
    case dict kvs => exact parse_metric_spec_bad_operation kvs cols hop
  · intro df spec scdf hop hfl
    have hsub : ∀ x ∈ ["count", "sum", "mean", "median", "min", "max", "nunique"],
        x ∈ ALLOWED_OPERATIONS := by decide
    have h1 : spec.operation ∉ ["count", "sum", "mean", "median", "min", "max", "nunique"] :=
      fun hm => hop (hsub _ hm)
    have h2 : ¬(spec.operation = "ratio" ∨ spec.operation = "pct") := by
      rintro (h | h) <;> rw [h] at hop <;> exact hop (by decide)
    simp only [evaluate_metric, hfl]
    rw [if_neg h1, if_neg h2]

/-- C7 counterexample: `evaluate_metric` on a spec whose operation `"exec"`
is outside the enum, but whose where clause is `contains "("`: the claim
predicts the NaN sentinel, the code raises. -/
theorem C7_counterexample :
    evaluate_metric dfC
      ⟨"Inj", "exec", Option.none, Option.none, Option.none,
       [⟨"c", "contains", PyVal.str "("⟩], "auto", ""⟩ = .error () := by
  with_unfolding_all rfl

/-- C7 witness: the amended theorem applied to a code-like operation payload
and to a benign spec with the non-enum operation `"exec"`. -/
theorem C7_witness :
    parse_metric_spec
      (.dict [("name", .str "M"), ("operation", .str "__import__(chr(111))")])
      Option.none = .error () ∧
    evaluate_metric dfC
      ⟨"Inj2", "exec", Option.none, Option.none, Option.none, [], "auto", ""⟩ =
      .ok Option.none :=
  ⟨C7_injection_safety.1 _ Option.none rfl (by decide),
   C7_injection_safety.2 dfC _ dfC (by decide) rfl⟩

/-- C8: the column allow-list.  (1) with a known-column set supplied,
`_validate_column` rejects every string column whose stripped form is not in
the set; (2) independently of the set, it rejects every column that is empty
after trimming or contains a character outside the restrictive class. -/
theorem C8_column_allowlist :
    (∀ (s : String) (known : List String), pyStrip s ∉ known →
        validate_column (.str s) (some known) = .error ()) ∧
    (∀ (s : String) (cols : Option (List String)),
        (pyStrip s = "" ∨ ∃ c ∈ (pyStrip s).data, columnClassChar c = false) →
        validate_column (.str s) cols = .error ()) :=
  ⟨validate_column_not_known, validate_column_bad_class⟩

/-- C8 witness: a column outside the known set, and a column with a character
outside the restrictive class, are both rejected. -/
theorem C8_witness :
    validate_column (.str "revenue") (some ["cost", "region"]) = .error () ∧
    validate_column (.str "amount; drop") Option.none = .error () :=
  ⟨C8_column_allowlist.1 "revenue" ["cost", "region"] (by decide),
   C8_column_allowlist.2 "amount; drop" Option.none
     (Or.inr ⟨';', by decide, by decide⟩)⟩

/-! ## Claims C4 and C6 -/

/-- A 4-row single-column dataset with groups a, a, b, b. -/
def dfG : DataFrame :=
  ⟨["grp"], [[("grp", CellValue.str "a")], [("grp", CellValue.str "a")],
             [("grp", CellValue.str "b")], [("grp", CellValue.str "b")]]⟩

/-- A pct metric: share of rows with grp = a. -/
def specPct : MetricSpec :=
  ⟨"Share", "pct", Option.none,
   some ⟨"count", Option.none, [⟨"grp", "eq", PyVal.str "a"⟩]⟩,
   some ⟨"count", Option.none, []⟩, [], "auto", ""⟩

/-- A ratio metric whose denominator sums a non-numeric column (sum 0). -/
def specZeroDen : MetricSpec :=
  ⟨"Z", "ratio", Option.none,
   some ⟨"count", Option.none, []⟩,
   some ⟨"sum", some "grp", []⟩, [], "auto", ""⟩

/-- A ratio metric whose numerator's where clause raises (regex needle "(")
while its denominator's aggregate, on its own, is NaN. -/
def specRatioBad : MetricSpec :=
  ⟨"R", "ratio", Option.none,
   some ⟨"count", Option.none, [⟨"c", "contains", PyVal.str "("⟩]⟩,
   some ⟨"sum", some "missing", []⟩, [], "auto", ""⟩

/-- C4 (amended): the ratio zero-guard, provided the metric's where filters
and both operand evaluations complete without raising (a regex-invalid
contains needle in any of those scopes raises instead): a denominator
aggregate of NaN or 0 yields the NaN sentinel, a NaN numerator yields the
sentinel, and otherwise the result is numerator / denominator, times 100
exactly when the operation is pct. -/
theorem C4_ratio_zero_guard (df : DataFrame) (spec : MetricSpec)
    (scdf : DataFrame) (num den : Option ℚ)
    (hop : spec.operation = "ratio" ∨ spec.operation = "pct")
    (hw : apply_where_filters df spec.where_ = .ok scdf)
    (hnum : evaluate_operand scdf spec.numerator = .ok num)
    (hden : evaluate_operand scdf spec.denominator = .ok den) :
    ((den = Option.none ∨ den = some 0) → evaluate_metric df spec = .ok Option.none) ∧
    (num = Option.none → evaluate_metric df spec = .ok Option.none) ∧
    (∀ d n, den = some d → d ≠ 0 → num = some n →
      evaluate_metric df spec =
        .ok (some (n / d * (if spec.operation = "pct" then 100 else 1)))) := by
  have hbase : spec.operation ∉ ["count", "sum", "mean", "median", "min", "max", "nunique"] := by
    rcases hop with h | h <;> rw [h] <;> decide
  refine ⟨?_, ?_, ?_⟩
  · rintro (rfl | rfl)
    · simp only [evaluate_metric, hw]
      rw [if_neg hbase, if_pos hop]
      simp only [hnum, hden]
    · simp only [evaluate_metric, hw]
      rw [if_neg hbase, if_pos hop]
      simp only [hnum, hden]
      simp
  · rintro rfl
    simp only [evaluate_metric, hw]
    rw [if_neg hbase, if_pos hop]
    simp only [hnum, hden]
    cases den with
    | none => rfl
    | some d =>
      by_cases hd : d = 0
      · simp [hd]
      · simp [hd]
  · rintro d n rfl hd rfl
    simp only [evaluate_metric, hw]
    rw [if_neg hbase, if_pos hop]
    simp only [hnum, hden]
    rw [if_neg hd]

/-- C4 counterexample: the denominator operand's aggregate on its own is NaN,
so the claim requires `evaluate_metric` to return the NaN sentinel; the code
instead raises while evaluating the numerator's contains filter. -/
theorem C4_counterexample :
    evaluate_operand dfC specRatioBad.denominator = .ok Option.none ∧
    evaluate_metric dfC specRatioBad = .error () :=
  ⟨by with_unfolding_all rfl, by with_unfolding_all rfl⟩

/-- C4 witness: the zero-guard theorem at concrete inputs: a pct metric
evaluating to 2/4 of the rows, and a ratio metric with a zero denominator
yielding the sentinel. -/
theorem C4_witness :
    evaluate_metric dfG specPct = .ok (some ((2 : ℚ) / 4 * 100)) ∧
    evaluate_metric dfG specZeroDen = .ok Option.none :=
  ⟨by
    have h := (C4_ratio_zero_guard dfG specPct dfG (some 2) (some 4)
      (Or.inr rfl) rfl (by with_unfolding_all rfl) (by with_unfolding_all rfl)).2.2
      4 2 rfl (by norm_num) rfl
    simpa using h,
   (C4_ratio_zero_guard dfG specZeroDen dfG (some 4) (some 0)
      (Or.inl rfl) rfl (by with_unfolding_all rfl) (by with_unfolding_all rfl)).1
      (Or.inr rfl)⟩

/-- The plan payload whose metrics list is empty. -/
def payloadEmptyMetrics : PyVal := .dict [("metrics", .list [])]

/-- The plan the parser produces for `payloadEmptyMetrics`. -/
def planEmptyMetrics : CopilotQueryPlan :=
  ⟨"", "summary", [recordCountMetric], [], [], Option.none, "table",
   Option.none, [], payloadEmptyMetrics⟩

/-- C6: the metrics fallback.  For every plan payload whose metrics field is
a list, a successfully parsed plan's metrics are exactly the valid specs
among the first six entries, or the single synthesized `Record Count` /
`count` metric when none validate; the plan always carries between 1 and 6
metrics. -/
theorem C6_metrics_fallback (payload : PyVal) (cols : Option (List String))
    (ms : List PyVal) (plan : CopilotQueryPlan)
    (hm : payload.get "metrics" (.list []) = .list ms)
    (hp : parse_query_plan payload cols = .ok plan) :
    plan.metrics =
      (if ((ms.take 6).filterMap (fun r => (parse_metric_spec r cols).toOption)).isEmpty
       then [recordCountMetric]
       else (ms.take 6).filterMap (fun r => (parse_metric_spec r cols).toOption)) ∧
    1 ≤ plan.metrics.length ∧ plan.metrics.length ≤ 6 := by
  cases payload <;> simp only [parse_query_plan] at hp <;> try exact absurd hp (by simp)
  case dict kvs =>
    rw [hm] at hp
    cases hf : normalize_where ((PyVal.dict kvs).get "filters" (.list [])) cols with
    | error e => rw [hf] at hp; exact absurd hp (by simp)
    | ok filters =>
      rw [hf] at hp
      simp only [Except.ok.injEq] at hp
      subst hp
      refine ⟨rfl, ?_, ?_⟩
      · by_cases he : ((ms.take 6).filterMap (fun r => (parse_metric_spec r cols).toOption)).isEmpty = true
        · simp [he]
        · rw [Bool.not_eq_true] at he
          simp only [he, Bool.false_eq_true, if_false]
          have hne : ((ms.take 6).filterMap (fun r => (parse_metric_spec r cols).toOption)) ≠ [] := by
            simpa [List.isEmpty_iff] using he
          have hlen := List.length_pos.mpr hne
          omega
      · by_cases he : ((ms.take 6).filterMap (fun r => (parse_metric_spec r cols).toOption)).isEmpty = true
        · simp [he]
        · rw [Bool.not_eq_true] at he
          simp only [he, Bool.false_eq_true, if_false]
          calc ((ms.take 6).filterMap (fun r => (parse_metric_spec r cols).toOption)).length
              ≤ (ms.take 6).length := List.length_filterMap_le _ _
            _ ≤ 6 := List.length_take_le _ _

/-- C6 witness: the fallback theorem at the empty metrics list: the plan
carries exactly the synthesized Record Count metric. -/
theorem C6_witness :
    planEmptyMetrics.metrics = [recordCountMetric] ∧
    1 ≤ planEmptyMetrics.metrics.length ∧ planEmptyMetrics.metrics.length ≤ 6 :=
  ⟨(C6_metrics_fallback payloadEmptyMetrics Option.none [] planEmptyMetrics rfl
      (by with_unfolding_all rfl)).1.trans (by with_unfolding_all rfl),
   (C6_metrics_fallback payloadEmptyMetrics Option.none [] planEmptyMetrics rfl
      (by with_unfolding_all rfl)).2⟩

/-! ## Formatter lemmas (claims C9 and C10) -/

/-- The number of characters after the final '.' of a rendered value, `none`
when the text has no '.'. -/
def decimalsAfterPoint (s : String) : Option ℕ :=
  if '.' ∈ s.data then
    some ((s.data.reverse.takeWhile (fun c => c ≠ '.')).length)
  else Option.none

theorem digitChar10_ne_dot (n : ℕ) : digitChar10 n ≠ '.' := by
  unfold digitChar10
  have h1 : n % 10 < 10 := Nat.mod_lt _ (by norm_num)
  set m := n % 10 with hm
  interval_cases m <;> decide

theorem digitChar10_ne_comma (n : ℕ) : digitChar10 n ≠ ',' := by
  unfold digitChar10
  have h1 : n % 10 < 10 := Nat.mod_lt _ (by norm_num)
  set m := n % 10 with hm
  interval_cases m <;> decide

theorem natDigitsRevAux_mem (fuel : ℕ) :
    ∀ n c, c ∈ natDigitsRevAux fuel n → ∃ k, c = digitChar10 k := by
  induction fuel with
  | zero => intro n c hc; cases hc
  | succ f ih =>
    intro n c hc
    unfold natDigitsRevAux at hc
    by_cases h : n < 10
    · rw [if_pos h] at hc
      rcases List.mem_singleton.mp hc with rfl
      exact ⟨n, rfl⟩
    · rw [if_neg h] at hc
      rcases List.mem_cons.mp hc with rfl | hc
      · exact ⟨n % 10, rfl⟩
      · exact ih _ _ hc

theorem natDigits_mem (n : ℕ) (c : Char) (hc : c ∈ natDigits n) :
    ∃ k, c = digitChar10 k :=
  natDigitsRevAux_mem _ _ _ (List.mem_reverse.mp hc)

theorem group3Rev_mem : ∀ (ds : List Char), ∀ c ∈ group3Rev ds, c ∈ ds ∨ c = ','
  | [] => by simp [group3Rev]
  | [d₁] => by simp [group3Rev]
  | [d₁, d₂] => by simp [group3Rev]
  | [d₁, d₂, d₃] => by simp [group3Rev]
  | d₁ :: d₂ :: d₃ :: d₄ :: rest => by
    intro c hc
    simp only [group3Rev] at hc
    rcases List.mem_cons.mp hc with rfl | hc
    · exact Or.inl (by simp)
    rcases List.mem_cons.mp hc with rfl | hc
    · exact Or.inl (by simp)
    rcases List.mem_cons.mp hc with rfl | hc
    · exact Or.inl (by simp)
    rcases List.mem_cons.mp hc with rfl | hc
    · exact Or.inr rfl
    rcases group3Rev_mem (d₄ :: rest) c hc with h | h
    · exact Or.inl (List.mem_cons_of_mem _ (List.mem_cons_of_mem _ (List.mem_cons_of_mem _ h)))
    · exact Or.inr h

theorem groupDigits_mem (ds : List Char) (c : Char) (hc : c ∈ groupDigits ds) :
    c ∈ ds ∨ c = ',' := by
  unfold groupDigits at hc
  rcases group3Rev_mem ds.reverse c (List.mem_reverse.mp hc) with h | h
  · exact Or.inl (List.mem_reverse.mp h)
  · exact Or.inr h

theorem groupDigits_natDigits_no_dot (m : ℕ) (c : Char)
    (hc : c ∈ groupDigits (natDigits m)) : c ≠ '.' := by
  rcases groupDigits_mem _ _ hc with h | rfl
  · rcases natDigits_mem _ _ h with ⟨k, rfl⟩
    exact digitChar10_ne_dot k
  · decide

theorem natDigitsRevAux_length_le (fuel : ℕ) :
    ∀ m d : ℕ, m < 10 ^ d → 1 ≤ d → (natDigitsRevAux fuel m).length ≤ d := by
  induction fuel with
  | zero => intro m d _ _; simp [natDigitsRevAux]
  | succ f ih =>
    intro m d hm hd
    unfold natDigitsRevAux
    by_cases h : m < 10
    · rw [if_pos h]; simpa using hd
    · rw [if_neg h]
      have hd2 : 2 ≤ d := by
        by_contra hcon
        have : d = 1 := by omega
        rw [this] at hm
        simp at hm
        omega
      have hdiv : m / 10 < 10 ^ (d - 1) := by
        rw [Nat.div_lt_iff_lt_mul (by norm_num)]
        calc m < 10 ^ d := hm
          _ = 10 ^ (d - 1) * 10 := by
            rw [← pow_succ]
            congr 1
            omega
      have := ih (m / 10) (d - 1) hdiv (by omega)
      simp only [List.length_cons]
      omega

theorem takeWhile_append_stop (p : Char → Bool) (a : List Char) (b : Char)
    (rest : List Char) (ha : ∀ c ∈ a, p c = true) (hb : p b = false) :
    (a ++ b :: rest).takeWhile p = a := by
  induction a with
  | nil => simp [List.takeWhile, hb]
  | cons x xs ih =>
    have hx : p x = true := ha x (by simp)
    simp only [List.cons_append, List.takeWhile, hx]
    congr 1
    exact ih (fun c hc => ha c (by simp [hc]))

theorem decimalsAfterPoint_no_dot (l : List Char) (h : '.' ∉ l) :
    decimalsAfterPoint ⟨l⟩ = Option.none := by
  simp [decimalsAfterPoint, h]

theorem decimalsAfterPoint_split (pre frac : List Char)
    (hfrac : '.' ∉ frac) :
    decimalsAfterPoint ⟨pre ++ '.' :: frac⟩ = some frac.length := by
  have hmem : '.' ∈ pre ++ '.' :: frac := by simp
  simp only [decimalsAfterPoint, hmem, if_pos]
  congr 1
  rw [List.reverse_append, List.reverse_cons, List.append_assoc]
  simp only [List.singleton_append]
  rw [takeWhile_append_stop _ frac.reverse '.' _
    (fun c hc => by
      simp only [decide_eq_true_eq, ne_eq]
      intro hcc
      exact hfrac (by rw [← hcc]; exact List.mem_reverse.mp hc))
    (by simp)]
  exact List.length_reverse _

theorem frac_digits_no_dot (d : ℕ) (m : ℕ) (c : Char)
    (hc : c ∈ List.replicate (d - (natDigits m).length) '0' ++ natDigits m) :
    c ≠ '.' := by
  rcases List.mem_append.mp hc with h | h
  · rw [List.eq_of_mem_replicate h]; decide
  · rcases natDigits_mem _ _ h with ⟨k, rfl⟩
    exact digitChar10_ne_dot k

theorem natDigits_length_le (m d : ℕ) (hm : m < 10 ^ d) (hd : 1 ≤ d) :
    (natDigits m).length ≤ d := by
  unfold natDigits natDigitsRev
  rw [List.length_reverse]
  exact natDigitsRevAux_length_le _ _ _ hm hd

theorem decimalsAfterPoint_formatFixed (q : ℚ) (d : ℕ) :
    decimalsAfterPoint (formatFixed q d) = if d = 0 then Option.none else some d := by
  by_cases hd : d = 0
  · subst hd
    simp only [formatFixed, if_true, eq_self_iff_true, List.append_nil]
    apply decimalsAfterPoint_no_dot
    intro hdot
    rcases List.mem_append.mp hdot with h | h
    · by_cases hq : q < 0 <;> simp [hq] at h
    · exact groupDigits_natDigits_no_dot _ _ h rfl
  · simp only [formatFixed, hd, if_false]
    have hfrac : '.' ∉ List.replicate
        (d - (natDigits ((roundHalfEven (|q| * (10:ℚ) ^ d)).toNat % 10 ^ d)).length) '0' ++
        natDigits ((roundHalfEven (|q| * (10:ℚ) ^ d)).toNat % 10 ^ d) :=
      fun h => frac_digits_no_dot d _ _ h rfl
    rw [decimalsAfterPoint_split _ _ hfrac]
    congr 1
    rw [List.length_append, List.length_replicate]
    have hlen : (natDigits ((roundHalfEven (|q| * (10:ℚ) ^ d)).toNat % 10 ^ d)).length ≤ d :=
      natDigits_length_le _ d (Nat.mod_lt _ (Nat.pos_pow_of_pos d (by norm_num))) (by omega)
    omega

theorem roundHalfEven_ge_floor (x : ℚ) : ⌊x⌋ ≤ roundHalfEven x := by
  simp only [roundHalfEven]
  split_ifs <;> omega

theorem natDigitsRevAux_irrel : ∀ (f g m : ℕ), m < f → m < g →
    natDigitsRevAux f m = natDigitsRevAux g m
  | 0, _, _, hf, _ => by omega
  | _ + 1, 0, _, _, hg => by omega
  | f + 1, g + 1, m, hf, hg => by
    unfold natDigitsRevAux
    by_cases h : m < 10
    · rw [if_pos h, if_pos h]
    · rw [if_neg h, if_neg h]
      have hm10 : m / 10 < m := Nat.div_lt_self (by omega) (by norm_num)
      rw [natDigitsRevAux_irrel f g (m / 10) (by omega) (by omega)]

theorem natDigitsRev_eq (m : ℕ) :
    natDigitsRev m =
      if m < 10 then [digitChar10 m]
      else digitChar10 (m % 10) :: natDigitsRev (m / 10) := by
  unfold natDigitsRev
  conv_lhs => rw [natDigitsRevAux]
  by_cases h : m < 10
  · rw [if_pos h, if_pos h]
  · rw [if_neg h, if_neg h]
    have hm10 : m / 10 < m := Nat.div_lt_self (by omega) (by norm_num)
    rw [natDigitsRevAux_irrel m (m / 10 + 1) (m / 10) (by omega) (by omega)]

theorem natDigitsRev_length_ge (m : ℕ) : ∀ k : ℕ, 10 ^ k ≤ m →
    k + 1 ≤ (natDigitsRev m).length := by
  induction m using Nat.strong_induction_on with
  | _ m ih =>
    intro k hk
    rw [natDigitsRev_eq]
    by_cases h : m < 10
    · rw [if_pos h]
      have : k = 0 := by
        by_contra hc
        have h1 : 10 ^ 1 ≤ 10 ^ k := Nat.pow_le_pow_right (by norm_num) (by omega)
        simp at h1
        omega
      simp [this]
    · rw [if_neg h]
      cases k with
      | zero => simp
      | succ k' =>
        have hdiv : 10 ^ k' ≤ m / 10 := by
          rw [Nat.le_div_iff_mul_le (by norm_num)]
          calc 10 ^ k' * 10 = 10 ^ (k' + 1) := (pow_succ 10 k').symm
            _ ≤ m := hk
        have hlt : m / 10 < m := Nat.div_lt_self (by omega) (by norm_num)
        have := ih (m / 10) hlt k' hdiv
        simp only [List.length_cons]
        omega

theorem group3Rev_comma_of_length (ds : List Char) (h : 4 ≤ ds.length) :
    ',' ∈ group3Rev ds := by
  match ds, h with
  | d₁ :: d₂ :: d₃ :: d₄ :: rest, _ =>
    simp only [group3Rev]
    exact List.mem_cons_of_mem _ (List.mem_cons_of_mem _ (List.mem_cons_of_mem _ (by simp)))

theorem groupDigits_comma_of_length (ds : List Char) (h : 4 ≤ ds.length) :
    ',' ∈ groupDigits ds := by
  unfold groupDigits
  rw [List.mem_reverse]
  exact group3Rev_comma_of_length _ (by simpa using h)

theorem format_auto_eq (q : ℚ) :
    format_metric_value (some q) "auto" =
      (if |q| ≥ 100 then formatFixed q 0
       else if |q| ≥ 1 then formatFixed q 2 else formatFixed q 4) := by
  simp [format_metric_value]

/-- C9: formatter sentinel and auto semantics.  `format_metric_value`
renders NaN/None as the literal "N/A" under every format hint; for
non-sentinel values under `auto` it renders 0 decimal places when
|v| ≥ 100, 2 when 1 ≤ |v| < 100, and 4 when |v| < 1; and the integer part
is grouped with thousands separators (a comma appears whenever the
rendered magnitude reaches 1000, which under auto can only happen in the
0-decimal branch). -/
theorem C9_formatter_sentinel_and_auto :
    (∀ fmt : String, format_metric_value Option.none fmt = "N/A") ∧
    (∀ q : ℚ, 100 ≤ |q| →
      decimalsAfterPoint (format_metric_value (some q) "auto") = Option.none) ∧
    (∀ q : ℚ, 1 ≤ |q| → |q| < 100 →
      decimalsAfterPoint (format_metric_value (some q) "auto") = some 2) ∧
    (∀ q : ℚ, |q| < 1 →
      decimalsAfterPoint (format_metric_value (some q) "auto") = some 4) ∧
    (∀ q : ℚ, 1000 ≤ q → ',' ∈ (format_metric_value (some q) "auto").data) := by
  refine ⟨fun fmt => rfl, ?_, ?_, ?_, ?_⟩
  · intro q h
    rw [format_auto_eq, if_pos h, decimalsAfterPoint_formatFixed]
    simp
  · intro q h1 h2
    rw [format_auto_eq, if_neg (not_le.mpr h2), if_pos h1,
      decimalsAfterPoint_formatFixed]
    simp
  · intro q h
    have h2 : ¬(100 : ℚ) ≤ |q| := by
      intro hc
      linarith
    rw [format_auto_eq, if_neg h2, if_neg (not_le.mpr h), decimalsAfterPoint_formatFixed]
    simp
  · intro q h
    have hq0 : (0 : ℚ) ≤ q := by linarith
    have habs : |q| = q := abs_of_nonneg hq0
    have h100 : (100 : ℚ) ≤ |q| := by rw [habs]; linarith
    rw [format_auto_eq, if_pos h100]
    have hqneg : ¬ q < 0 := by linarith
    simp only [formatFixed, hqneg, if_false, if_true, eq_self_iff_true,
      List.append_nil, List.nil_append, pow_zero, mul_one, Nat.div_one]
    have hfloor : (1000 : ℤ) ≤ ⌊|q|⌋ := by
      rw [habs]
      exact Int.le_floor.mpr (by exact_mod_cast h)
    have hrnd : (1000 : ℤ) ≤ roundHalfEven |q| :=
      le_trans hfloor (roundHalfEven_ge_floor _)
    have hn : 10 ^ 3 ≤ (roundHalfEven |q|).toNat := by
      have : (10 : ℕ) ^ 3 = 1000 := by norm_num
      omega
    apply groupDigits_comma_of_length
    have hlen := natDigitsRev_length_ge _ 3 hn
    unfold natDigits
    rw [List.length_reverse]
    unfold natDigitsRev at hlen ⊢
    omega

/-- C9 witness: the sentinel and each auto decimal branch at concrete
inputs: "N/A" under the days hint, 0 decimals at 250, 2 at 5/2,
4 at 1/4, and a thousands comma at 123456. -/
theorem C9_witness :
    format_metric_value Option.none "days" = "N/A" ∧
    decimalsAfterPoint (format_metric_value (some 250) "auto") = Option.none ∧
    decimalsAfterPoint (format_metric_value (some (5 / 2)) "auto") = some 2 ∧
    decimalsAfterPoint (format_metric_value (some (1 / 4)) "auto") = some 4 ∧
    ',' ∈ (format_metric_value (some 123456) "auto").data :=
  ⟨C9_formatter_sentinel_and_auto.1 "days",
   C9_formatter_sentinel_and_auto.2.1 250
     (by rw [abs_of_nonneg (by norm_num : (0:ℚ) ≤ 250)]; norm_num),
   C9_formatter_sentinel_and_auto.2.2.1 (5 / 2)
     (by rw [abs_of_nonneg (by norm_num : (0:ℚ) ≤ 5 / 2)]; norm_num)
     (by rw [abs_of_nonneg (by norm_num : (0:ℚ) ≤ 5 / 2)]; norm_num),
   C9_formatter_sentinel_and_auto.2.2.2.1 (1 / 4)
     (by rw [abs_of_nonneg (by norm_num : (0:ℚ) ≤ 1 / 4)]; norm_num),
   C9_formatter_sentinel_and_auto.2.2.2.2 123456 (by norm_num)⟩

/-- C10: the format hint "number" is accepted by the parser's six-value
enum (a parsed spec retains it verbatim), yet the formatter has no branch
for it, so it renders identically to "auto" for every value including the
sentinel. -/
theorem C10_number_format_equals_auto :
    (parse_metric_spec
        (.dict [("name", PyVal.str "M"), ("operation", PyVal.str "count"),
                ("format", PyVal.str "number")]) Option.none).map
      (fun s => s.format) = .ok "number" ∧
    ∀ v : Option ℚ, format_metric_value v "number" = format_metric_value v "auto" := by
  constructor
  · with_unfolding_all rfl
  · intro v
    cases v with
    | none => rfl
    | some q => simp [format_metric_value]

/-! ## JSON values and a model of `json.loads` (claim C5)

The decoder models the JSON grammar accepted by Python's `json.loads`:
whitespace is space/tab/newline/carriage-return; numbers follow
`-?(0|[1-9][0-9]*)(\.[0-9]+)?([eE][+-]?[0-9]+)?` with regex-style backtracking
of the optional groups; strings are double-quoted with the eight named escapes
and `\uXXXX` (surrogate pairing and the exact characters of lone surrogates
are not modelled); objects are association lists in source order (duplicate
keys retained rather than last-wins; no theorem depends on a duplicate-key
input).  `json.loads` skips leading whitespace, decodes one value — which by
the grammar neither starts nor ends with whitespace — and then accepts only
trailing whitespace; this is modelled extensionally as: trim whitespace at
both ends, then require the decode to consume the input exactly.  The
`NaN`/`Infinity` extensions of Python's decoder are not modelled. -/

/-- A decoded JSON value. -/
inductive Json where
  | null
  | bool (b : Bool)
  | num (q : ℚ)
  | str (s : String)
  | arr (xs : List Json)
  | obj (kvs : List (String × Json))

/-- JSON whitespace (`' '`, `'\t'`, `'\n'`, `'\r'`). -/
def isJsonWs (c : Char) : Bool :=
  c = ' ' || c = '\t' || c = '\n' || c = '\r'

/-- Whitespace trimmed from both ends. -/
def trimJsonWs (cs : List Char) : List Char :=
  ((cs.dropWhile isJsonWs).reverse.dropWhile isJsonWs).reverse

/-- Skip leading JSON whitespace. -/
def skipJsonWs : List Char → List Char
  | [] => []
  | c :: cs => if isJsonWs c then skipJsonWs cs else c :: cs

/-- Hexadecimal digit value. -/
def hexVal (c : Char) : Option ℕ :=
  if '0' ≤ c ∧ c ≤ '9' then some (c.toNat - 48)
  else if 'a' ≤ c ∧ c ≤ 'f' then some (c.toNat - 87)
  else if 'A' ≤ c ∧ c ≤ 'F' then some (c.toNat - 55)
  else Option.none

/-- Decode a JSON string body (the input starts after the opening quote);
returns the decoded characters and the input after the closing quote. -/
def parseStringBody : List Char → Option (List Char × List Char)
  | [] => Option.none
  | c :: cs =>
    if c = '"' then some ([], cs)
    else if c = '\\' then
      match cs with
      | [] => Option.none
      | e :: cs2 =>
        if e = 'u' then
          match cs2 with
          | h1 :: h2 :: h3 :: h4 :: cs3 =>
            match hexVal h1, hexVal h2, hexVal h3, hexVal h4 with
            | some v1, some v2, some v3, some v4 =>
              match parseStringBody cs3 with
              | some (s, r) =>
                some (Char.ofNat (v1 * 4096 + v2 * 256 + v3 * 16 + v4) :: s, r)
              | Option.none => Option.none
            | _, _, _, _ => Option.none
          | _ => Option.none
        else
          match
            (if e = '"' then some '"'
             else if e = '\\' then some '\\'
             else if e = '/' then some '/'
             else if e = 'b' then some '\x08'
             else if e = 'f' then some '\x0c'
             else if e = 'n' then some '\n'
             else if e = 'r' then some '\r'
             else if e = 't' then some '\t'
             else Option.none) with
          | some ch =>
            match parseStringBody cs2 with
            | some (s, r) => some (ch :: s, r)
            | Option.none => Option.none
          | Option.none => Option.none
    else if c.toNat < 32 then Option.none
    else
      match parseStringBody cs with
      | some (s, r) => some (c :: s, r)
      | Option.none => Option.none

/-- Numeric value of a run of decimal digits. -/
def digitsVal (ds : List Char) : ℕ :=
  ds.foldl (fun a c => a * 10 + (c.toNat - 48)) 0

/-- The integer-part group `0|[1-9][0-9]*` of the JSON number regex. -/
def parseIntPart : List Char → Option (List Char × List Char)
  | [] => Option.none
  | c :: cs =>
    if c = '0' then some (['0'], cs)
    else if c.isDigit then
      some (c :: cs.takeWhile Char.isDigit, cs.dropWhile Char.isDigit)
    else Option.none

/-- The optional fraction group `(\.[0-9]+)?`: consumes input only when the
whole group matches. -/
def parseFracPart (rest1 : List Char) : List Char × List Char :=
  match rest1 with
  | '.' :: r =>
    if (r.takeWhile Char.isDigit).isEmpty then ([], rest1)
    else (r.takeWhile Char.isDigit, r.dropWhile Char.isDigit)
  | _ => ([], rest1)

/-- The optional exponent group `([eE][+-]?[0-9]+)?`: consumes input only when
the whole group matches. -/
def parseExpPart (rest2 : List Char) : Option ℤ × List Char :=
  match rest2 with
  | e :: r =>
    if e = 'e' ∨ e = 'E' then
      match r with
      | '-' :: r2 =>
        if (r2.takeWhile Char.isDigit).isEmpty then (Option.none, rest2)
        else (some (-(digitsVal (r2.takeWhile Char.isDigit) : ℤ)), r2.dropWhile Char.isDigit)
      | '+' :: r2 =>
        if (r2.takeWhile Char.isDigit).isEmpty then (Option.none, rest2)
        else (some (digitsVal (r2.takeWhile Char.isDigit) : ℤ), r2.dropWhile Char.isDigit)
      | r2 =>
        if (r2.takeWhile Char.isDigit).isEmpty then (Option.none, rest2)
        else (some (digitsVal (r2.takeWhile Char.isDigit) : ℤ), r2.dropWhile Char.isDigit)
    else (Option.none, rest2)
  | [] => (Option.none, rest2)

/-- The optional leading minus of the JSON number regex. -/
def stripNeg (cs : List Char) : Bool × List Char :=
  match cs with
  | '-' :: r => (true, r)
  | _ => (false, cs)

/-- Decode a JSON number at the head of the input, mirroring the decoder's
number regex: the fraction and exponent groups only consume input when they
match completely. -/
def parseNumber (cs0 : List Char) : Option (ℚ × List Char) :=
  let sgn : Bool × List Char := stripNeg cs0
  match parseIntPart sgn.2 with
  | Option.none => Option.none
  | some (ip, rest1) =>
    let frac := parseFracPart rest1
    let expo := parseExpPart frac.2
    let mant : ℚ := (digitsVal (ip ++ frac.1) : ℕ)
    let base : ℚ := mant / (10 : ℚ) ^ frac.1.length
    let v : ℚ :=
      match expo.1 with
      | Option.none => base
      | some z => base * (10 : ℚ) ^ z
    some ((if sgn.1 then -v else v), expo.2)

mutual
/-- Decode one JSON value at the head of the input (fuel bounds the nesting
depth; any fuel above the input length is enough). -/
def parseJsonValue : ℕ → List Char → Option (Json × List Char)
  | 0, _ => Option.none
  | _ + 1, 'n' :: 'u' :: 'l' :: 'l' :: rest => some (.null, rest)
  | _ + 1, 't' :: 'r' :: 'u' :: 'e' :: rest => some (.bool true, rest)
  | _ + 1, 'f' :: 'a' :: 'l' :: 's' :: 'e' :: rest => some (.bool false, rest)
  | _ + 1, '"' :: rest =>
    match parseStringBody rest with
    | some (s, r) => some (.str ⟨s⟩, r)
    | Option.none => Option.none
  | fuel + 1, '\x7b' :: rest =>
    (match skipJsonWs rest with
     | '\x7d' :: r => some (.obj [], r)
     | _ =>
       match parseJsonMembers fuel (skipJsonWs rest) with
       | some (kvs, r) => some (.obj kvs, r)
       | Option.none => Option.none)
  | fuel + 1, '[' :: rest =>
    (match skipJsonWs rest with
     | ']' :: r => some (.arr [], r)
     | _ =>
       match parseJsonElems fuel (skipJsonWs rest) with
       | some (xs, r) => some (.arr xs, r)
       | Option.none => Option.none)
  | _ + 1, cs =>
    match parseNumber cs with
    | some (q, r) => some (.num q, r)
    | Option.none => Option.none

/-- Decode the members of an object, positioned at the first key's quote;
consumes through the closing brace. -/
def parseJsonMembers : ℕ → List Char → Option (List (String × Json) × List Char)
  | 0, _ => Option.none
  | fuel + 1, '"' :: rest =>
    (match parseStringBody rest with
     | some (key, r1) =>
       (match skipJsonWs r1 with
        | ':' :: r2 =>
          (match parseJsonValue fuel (skipJsonWs r2) with
           | some (v, r3) =>
             (match skipJsonWs r3 with
              | ',' :: r4 =>
                (match parseJsonMembers fuel (skipJsonWs r4) with
                 | some (kvs, r5) => some ((⟨key⟩, v) :: kvs, r5)
                 | Option.none => Option.none)
              | '\x7d' :: r4 => some ([(⟨key⟩, v)], r4)
              | _ => Option.none)
           | Option.none => Option.none)
        | _ => Option.none)
     | Option.none => Option.none)
  | _ + 1, _ => Option.none

/-- Decode the elements of an array, positioned at the first element;
consumes through the closing bracket. -/
def parseJsonElems : ℕ → List Char → Option (List Json × List Char)
  | 0, _ => Option.none
  | fuel + 1, cs =>
    match parseJsonValue fuel cs with
    | some (v, r1) =>
      (match skipJsonWs r1 with
       | ',' :: r2 =>
         (match parseJsonElems fuel (skipJsonWs r2) with
          | some (xs, r3) => some (v :: xs, r3)
          | Option.none => Option.none)
       | ']' :: r2 => some ([v], r2)
       | _ => Option.none)
    | Option.none => Option.none
end

/-- Model of `json.loads`: trim surrounding whitespace, decode one value, and
require the whole input to be consumed. -/
def jsonLoads (s : String) : Option Json :=
  let cs := trimJsonWs s.data
  match parseJsonValue (cs.length + 1) cs with
  | some (v, []) => some v
  | _ => Option.none

/-- `json.loads` followed by the `isinstance(parsed, dict)` check. -/
def jsonLoadsObj (s : String) : Option (List (String × Json)) :=
  match jsonLoads s with
  | some (.obj kvs) => some kvs
  | _ => Option.none

/-! ## `_extract_json_object` -/

/-- Model of `str.find(c)` (None for -1). -/
def pyFindChar (cs : List Char) (c : Char) : Option ℕ :=
  cs.findIdx? (· = c)

/-- Model of `str.rfind(c)` (None for -1). -/
def pyRFindChar (cs : List Char) (c : Char) : Option ℕ :=
  match cs.reverse.findIdx? (· = c) with
  | some k => some (cs.length - 1 - k)
  | Option.none => Option.none

/-- The candidate substring `cleaned[s : j + 1]`. -/
def sliceCD (cs : List Char) (s j : ℕ) : List Char :=
  (cs.take (j + 1)).drop s

/-- Model of `str.splitlines()` restricted to the `\n` / `\r\n` / `\r`
terminators (fuel-based; the exotic Unicode line boundaries are not
modelled). -/
def splitLinesAux : ℕ → List Char → List (List Char)
  | 0, _ => []
  | _ + 1, [] => []
  | fuel + 1, cs =>
    let line := cs.takeWhile (fun c => !(c = '\n' || c = '\r'))
    match cs.dropWhile (fun c => !(c = '\n' || c = '\r')) with
    | '\r' :: '\n' :: r => line :: splitLinesAux fuel r
    | _ :: r => line :: splitLinesAux fuel r
    | [] => [line]

/-- Model of `str.splitlines()`. -/
def splitLinesPy (cs : List Char) : List (List Char) :=
  splitLinesAux (cs.length + 1) cs

/-- The fence-stripping prelude of `_extract_json_object`: strip, and when the
text opens with a code fence drop every line that starts with one, rejoin
with newlines and strip again. -/
def stripFence (s : String) : String :=
  let cleaned := pyStrip s
  if cleaned.startsWith "```" then
    pyStrip ⟨List.intercalate ['\n']
      ((splitLinesPy cleaned.data).filter
        (fun line => !(pyStrip ⟨line⟩).startsWith "```"))⟩
  else cleaned

/-- The backward scan of `_extract_json_object`: `n` counts the candidate end
positions `idx = s + n` down to `s + 1` (mirroring `range(end, start, -1)`),
accepting the first candidate that `json.loads` parses into an object. -/
def scanCandidates (cs : List Char) (s : ℕ) : ℕ → Option (List (String × Json))
  | 0 => Option.none
  | n + 1 =>
    match jsonLoadsObj ⟨sliceCD cs s (s + n + 1)⟩ with
    | some kvs => some kvs
    | Option.none => scanCandidates cs s n

/-- Model of `_extract_json_object`: strip fences, try a direct parse, then
scan candidates from the first `\x7b` to each position at or before the last
`\x7d`, from the end backward; raise `ValidationError` when no such pair
exists or no candidate parses into an object. -/
def extract_json_object (text : String) : Except Unit (List (String × Json)) :=
  let cleaned := stripFence text
  match jsonLoadsObj cleaned with
  | some kvs => .ok kvs
  | Option.none =>
    let cs := cleaned.data
    match pyFindChar cs '\x7b', pyRFindChar cs '\x7d' with
    | some s, some e =>
      if e ≤ s then .error ()
      else
        match scanCandidates cs s (e - s) with
        | some kvs => .ok kvs
        | Option.none => .error ()
    | some _, Option.none => .error ()
    | Option.none, _ => .error ()

/-! ## C5 lemmas: whitespace and consumption -/

theorem skipJsonWs_decomp (cs : List Char) :
    ∃ w, cs = w ++ skipJsonWs cs ∧ ∀ c ∈ w, isJsonWs c = true := by
  induction cs with
  | nil => exact ⟨[], rfl, by simp⟩
  | cons c cs ih =>
    by_cases h : isJsonWs c = true
    · rcases ih with ⟨w, hw, hws⟩
      refine ⟨c :: w, ?_, ?_⟩
      · simp only [skipJsonWs, h, if_true]
        simpa using hw
      · intro d hd
        rcases List.mem_cons.mp hd with rfl | hd
        · exact h
        · exact hws d hd
    · refine ⟨[], ?_, by simp⟩
      simp only [skipJsonWs, h, if_false]
      simp


/-! ## C5 lemmas: consumption -/


set_option maxHeartbeats 1000000 in
theorem parseStringBody_consume :
    ∀ (n : ℕ) (cs : List Char), cs.length ≤ n → ∀ s r, parseStringBody cs = some (s, r) →
      ∃ pre, cs = pre ++ r := by
  intro n
  induction n with
  | zero =>
    intro cs hlen s r h
    have : cs = [] := List.eq_nil_of_length_eq_zero (by omega)
    subst this
    rw [show parseStringBody [] = (Option.none : Option (List Char × List Char)) from rfl] at h
    cases h
  | succ n ih =>
    intro cs hlen s r h
    cases cs with
    | nil =>
      rw [show parseStringBody [] = (Option.none : Option (List Char × List Char)) from rfl] at h
      cases h
    | cons c cs' =>
      unfold parseStringBody at h
      split at h
      · injection h with hh
        obtain ⟨hh1, hh2⟩ := Prod.mk.inj hh
        subst hh2
        exact ⟨[c], rfl⟩
      · split at h
        · split at h
          · exact absurd h (by simp)
          · rename_i e cs2
            split at h
            · split at h
              · rename_i h1 h2 h3 h4 cs3
                split at h
                · split at h
                  · rename_i s9 r9 heq
                    injection h with hh
                    obtain ⟨hh1, hh2⟩ := Prod.mk.inj hh
                    subst hh2
                    obtain ⟨pre, hpre⟩ := ih cs3 (by simp at hlen; omega) _ _ heq
                    exact ⟨c :: e :: h1 :: h2 :: h3 :: h4 :: pre, by simp [hpre]⟩
                  · exact absurd h (by simp)
                · exact absurd h (by simp)
              · exact absurd h (by simp)
            · split at h
              · split at h
                · rename_i s9 r9 heq
                  injection h with hh
                  obtain ⟨hh1, hh2⟩ := Prod.mk.inj hh
                  subst hh2
                  obtain ⟨pre, hpre⟩ := ih cs2 (by simp at hlen; omega) _ _ heq
                  exact ⟨c :: e :: pre, by simp [hpre]⟩
                · exact absurd h (by simp)
              · exact absurd h (by simp)
        · split at h
          · exact absurd h (by simp)
          · split at h
            · rename_i s9 r9 heq
              injection h with hh
              obtain ⟨hh1, hh2⟩ := Prod.mk.inj hh
              subst hh2
              obtain ⟨pre, hpre⟩ := ih cs' (by simp at hlen; omega) _ _ heq
              exact ⟨c :: pre, by simp [hpre]⟩
            · exact absurd h (by simp)

theorem parseIntPart_consume (cs : List Char) (ip rest : List Char)
    (h : parseIntPart cs = some (ip, rest)) : ∃ pre, cs = pre ++ rest := by
  cases cs with
  | nil => cases h
  | cons c cs' =>
    have hdef : parseIntPart (c :: cs') =
        (if c = '0' then some (['0'], cs')
         else if c.isDigit then
           some (c :: cs'.takeWhile Char.isDigit, cs'.dropWhile Char.isDigit)
         else Option.none) := rfl
    rw [hdef] at h
    split_ifs at h with h0 hd
    · injection h with hh
      obtain ⟨hh1, hh2⟩ := Prod.mk.inj hh
      subst hh2
      exact ⟨[c], rfl⟩
    · injection h with hh
      obtain ⟨hh1, hh2⟩ := Prod.mk.inj hh
      subst hh2
      exact ⟨c :: cs'.takeWhile Char.isDigit, by simp [List.takeWhile_append_dropWhile]⟩

theorem parseFracPart_consume : ∀ (rest1 : List Char),
    ∃ pre, rest1 = pre ++ (parseFracPart rest1).2
  | [] => ⟨[], rfl⟩
  | c :: r => by
    by_cases hc : c = '.'
    · subst hc
      by_cases hemp : (r.takeWhile Char.isDigit).isEmpty
      · exact ⟨[], by simp [parseFracPart, hemp]⟩
      · refine ⟨'.' :: r.takeWhile Char.isDigit, ?_⟩
        simp [parseFracPart, hemp, List.takeWhile_append_dropWhile]
    · refine ⟨[], ?_⟩
      have hdef : parseFracPart (c :: r) = ([], c :: r) := by
        unfold parseFracPart
        split
        · rename_i heq
          injection heq with he1 he2
          exact absurd he1 hc
        · rfl
      simp [hdef]

theorem parseExpPart_consume : ∀ (rest2 : List Char),
    ∃ pre, rest2 = pre ++ (parseExpPart rest2).2
  | [] => ⟨[], rfl⟩
  | e :: r => by
    by_cases he : e = 'e' ∨ e = 'E'
    · cases r with
      | nil =>
        refine ⟨[], ?_⟩
        have hdef : parseExpPart (e :: ([] : List Char)) = (Option.none, [e]) := by
          simp [parseExpPart, he]
        rw [hdef]
        rfl
      | cons c r2 =>
        by_cases hc1 : c = '-'
        · subst hc1
          by_cases hemp : (r2.takeWhile Char.isDigit).isEmpty
          · refine ⟨[], ?_⟩
            have hdef : parseExpPart (e :: '-' :: r2) = (Option.none, e :: '-' :: r2) := by
              simp [parseExpPart, he, hemp]
            rw [hdef]
            rfl
          · refine ⟨e :: '-' :: r2.takeWhile Char.isDigit, ?_⟩
            have hdef : (parseExpPart (e :: '-' :: r2)).2 = r2.dropWhile Char.isDigit := by
              simp [parseExpPart, he, hemp]
            rw [hdef]
            simp [List.takeWhile_append_dropWhile]
        · by_cases hc2 : c = '+'
          · subst hc2
            by_cases hemp : (r2.takeWhile Char.isDigit).isEmpty
            · refine ⟨[], ?_⟩
              have hdef : parseExpPart (e :: '+' :: r2) = (Option.none, e :: '+' :: r2) := by
                simp [parseExpPart, he, hemp]
              rw [hdef]
              rfl
            · refine ⟨e :: '+' :: r2.takeWhile Char.isDigit, ?_⟩
              have hdef : (parseExpPart (e :: '+' :: r2)).2 = r2.dropWhile Char.isDigit := by
                simp [parseExpPart, he, hemp]
              rw [hdef]
              simp [List.takeWhile_append_dropWhile]
          · by_cases hemp : ((c :: r2).takeWhile Char.isDigit).isEmpty
            · refine ⟨[], ?_⟩
              have hdef : parseExpPart (e :: c :: r2) = (Option.none, e :: c :: r2) := by
                simp [parseExpPart, he, hc1, hc2, hemp]
              rw [hdef]
              rfl
            · refine ⟨e :: (c :: r2).takeWhile Char.isDigit, ?_⟩
              have hdef : (parseExpPart (e :: c :: r2)).2 = (c :: r2).dropWhile Char.isDigit := by
                simp [parseExpPart, he, hc1, hc2, hemp]
              rw [hdef]
              simp [List.takeWhile_append_dropWhile]
    · refine ⟨[], ?_⟩
      have hdef : parseExpPart (e :: r) = (Option.none, e :: r) := by
        simp [parseExpPart, he]
      rw [hdef]
      rfl

theorem stripNeg_consume : ∀ (cs : List Char), ∃ sp, cs = sp ++ (stripNeg cs).2
  | [] => ⟨[], rfl⟩
  | c :: cs' => by
    by_cases hc : c = '-'
    · subst hc
      exact ⟨['-'], rfl⟩
    · refine ⟨[], ?_⟩
      have hdef : stripNeg (c :: cs') = (false, c :: cs') := by
        unfold stripNeg
        split
        · rename_i heq
          injection heq with he1 he2
          exact absurd he1 hc
        · rfl
      simp [hdef]

theorem parseNumber_consume (cs : List Char) (q : ℚ) (rest : List Char)
    (h : parseNumber cs = some (q, rest)) : ∃ pre, cs = pre ++ rest := by
  simp only [parseNumber] at h
  split at h
  · cases h
  · rename_i ip rest1 hip
    injection h with hh
    obtain ⟨hh1, hh2⟩ := Prod.mk.inj hh
    subst hh2
    obtain ⟨sp, hsp⟩ := stripNeg_consume cs
    obtain ⟨p1, hp1⟩ := parseIntPart_consume _ _ _ hip
    obtain ⟨p2, hp2⟩ := parseFracPart_consume rest1
    obtain ⟨p3, hp3⟩ := parseExpPart_consume (parseFracPart rest1).2
    refine ⟨sp ++ p1 ++ p2 ++ p3, ?_⟩
    calc cs = sp ++ (stripNeg cs).2 := hsp
      _ = sp ++ (p1 ++ rest1) := by rw [← hp1]
      _ = sp ++ (p1 ++ (p2 ++ (parseFracPart rest1).2)) := by rw [← hp2]
      _ = sp ++ (p1 ++ (p2 ++ (p3 ++ (parseExpPart (parseFracPart rest1).2).2))) := by
          rw [← hp3]
      _ = sp ++ p1 ++ p2 ++ p3 ++ (parseExpPart (parseFracPart rest1).2).2 := by
          simp [List.append_assoc]

set_option maxHeartbeats 1600000 in
theorem parseJson_consume (fuel : ℕ) :
    (∀ cs v rest, parseJsonValue fuel cs = some (v, rest) → ∃ pre, cs = pre ++ rest) ∧
    (∀ cs kvs rest, parseJsonMembers fuel cs = some (kvs, rest) → ∃ pre, cs = pre ++ rest) ∧
    (∀ cs xs rest, parseJsonElems fuel cs = some (xs, rest) → ∃ pre, cs = pre ++ rest) := by
  induction fuel with
  | zero =>
    refine ⟨?_, ?_, ?_⟩ <;> intro cs a rest h <;> cases h
  | succ f ih =>
    obtain ⟨ihV, ihM, ihE⟩ := ih
    refine ⟨?_, ?_, ?_⟩
    · intro cs v rest h
      unfold parseJsonValue at h
      split at h
      · cases h
      · rename_i n9 rest0 hfq
        obtain rfl := Nat.succ.inj hfq
        injection h with hh
        obtain ⟨hh1, hh2⟩ := Prod.mk.inj hh
        subst hh2
        exact ⟨['n', 'u', 'l', 'l'], rfl⟩
      · rename_i n9 rest0 hfq
        obtain rfl := Nat.succ.inj hfq
        injection h with hh
        obtain ⟨hh1, hh2⟩ := Prod.mk.inj hh
        subst hh2
        exact ⟨['t', 'r', 'u', 'e'], rfl⟩
      · rename_i n9 rest0 hfq
        obtain rfl := Nat.succ.inj hfq
        injection h with hh
        obtain ⟨hh1, hh2⟩ := Prod.mk.inj hh
        subst hh2
        exact ⟨['f', 'a', 'l', 's', 'e'], rfl⟩
      · rename_i n9 rest0 hfq
        obtain rfl := Nat.succ.inj hfq
        split at h
        · rename_i s9 r9 heq
          injection h with hh
          obtain ⟨hh1, hh2⟩ := Prod.mk.inj hh
          subst hh2
          obtain ⟨pre, hpre⟩ := parseStringBody_consume rest0.length rest0 le_rfl _ _ heq
          exact ⟨'"' :: pre, by simp [hpre]⟩
        · cases h
      · rename_i n9 rest0 hfq
        obtain rfl := Nat.succ.inj hfq
        obtain ⟨w, hw, hws⟩ := skipJsonWs_decomp rest0
        split at h
        · rename_i r9 heq
          injection h with hh
          obtain ⟨hh1, hh2⟩ := Prod.mk.inj hh
          subst hh2
          rw [heq] at hw
          exact ⟨'\x7b' :: (w ++ ['\x7d']), by simp [hw]⟩
        · split at h
          · rename_i kvs9 r9 heq
            injection h with hh
            obtain ⟨hh1, hh2⟩ := Prod.mk.inj hh
            subst hh2
            obtain ⟨pm, hpm⟩ := ihM _ _ _ heq
            rw [hpm] at hw
            exact ⟨'\x7b' :: (w ++ pm), by simp [hw]⟩
          · cases h
      · rename_i n9 rest0 hfq
        obtain rfl := Nat.succ.inj hfq
        obtain ⟨w, hw, hws⟩ := skipJsonWs_decomp rest0
        split at h
        · rename_i r9 heq
          injection h with hh
          obtain ⟨hh1, hh2⟩ := Prod.mk.inj hh
          subst hh2
          rw [heq] at hw
          exact ⟨'[' :: (w ++ [']']), by simp [hw]⟩
        · split at h
          · rename_i xs9 r9 heq
            injection h with hh
            obtain ⟨hh1, hh2⟩ := Prod.mk.inj hh
            subst hh2
            obtain ⟨pe, hpe⟩ := ihE _ _ _ heq
            rw [hpe] at hw
            exact ⟨'[' :: (w ++ pe), by simp [hw]⟩
          · cases h
      · split at h
        · rename_i q9 r9 heq
          injection h with hh
          obtain ⟨hh1, hh2⟩ := Prod.mk.inj hh
          subst hh2
          exact parseNumber_consume _ _ _ heq
        · cases h
    · intro cs kvs rest h
      unfold parseJsonMembers at h
      split at h
      · cases h
      · rename_i n9 rest0 hfq
        obtain rfl := Nat.succ.inj hfq
        split at h
        · rename_i key r1 hkey
          split at h
          · rename_i r2 hcolon
            split at h
            · rename_i v r3 hval
              split at h
              · rename_i r4 hcomma
                split at h
                · rename_i kvs9 r5 hrec
                  injection h with hh
                  obtain ⟨hh1, hh2⟩ := Prod.mk.inj hh
                  subst hh2
                  obtain ⟨pS, hpS⟩ := parseStringBody_consume rest0.length rest0 le_rfl _ _ hkey
                  obtain ⟨w1, hw1, _⟩ := skipJsonWs_decomp r1
                  rw [hcolon] at hw1
                  obtain ⟨w2, hw2, _⟩ := skipJsonWs_decomp r2
                  obtain ⟨pV, hpV⟩ := ihV _ _ _ hval
                  rw [hpV] at hw2
                  obtain ⟨w3, hw3, _⟩ := skipJsonWs_decomp r3
                  rw [hcomma] at hw3
                  obtain ⟨w4, hw4, _⟩ := skipJsonWs_decomp r4
                  obtain ⟨pM, hpM⟩ := ihM _ _ _ hrec
                  rw [hpM] at hw4
                  refine ⟨'"' :: (pS ++ (w1 ++ ':' :: (w2 ++ (pV ++ (w3 ++ ',' :: (w4 ++ pM)))))), ?_⟩
                  simp [hpS, hw1, hw2, hw3, hw4, List.append_assoc]
                · cases h
              · rename_i r4 hbrace
                injection h with hh
                obtain ⟨hh1, hh2⟩ := Prod.mk.inj hh
                subst hh2
                obtain ⟨pS, hpS⟩ := parseStringBody_consume rest0.length rest0 le_rfl _ _ hkey
                obtain ⟨w1, hw1, _⟩ := skipJsonWs_decomp r1
                rw [hcolon] at hw1
                obtain ⟨w2, hw2, _⟩ := skipJsonWs_decomp r2
                obtain ⟨pV, hpV⟩ := ihV _ _ _ hval
                rw [hpV] at hw2
                obtain ⟨w3, hw3, _⟩ := skipJsonWs_decomp r3
                rw [hbrace] at hw3
                refine ⟨'"' :: (pS ++ (w1 ++ ':' :: (w2 ++ (pV ++ (w3 ++ ['\x7d']))))), ?_⟩
                simp [hpS, hw1, hw2, hw3, List.append_assoc]
              · cases h
            · cases h
          · cases h
        · cases h
      · cases h
    · intro cs xs rest h
      unfold parseJsonElems at h
      split at h
      · rename_i v r1 hval
        split at h
        · rename_i r2 hcomma
          split at h
          · rename_i xs9 r3 hrec
            injection h with hh
            obtain ⟨hh1, hh2⟩ := Prod.mk.inj hh
            subst hh2
            obtain ⟨pV, hpV⟩ := ihV _ _ _ hval
            obtain ⟨w1, hw1, _⟩ := skipJsonWs_decomp r1
            rw [hcomma] at hw1
            obtain ⟨w2, hw2, _⟩ := skipJsonWs_decomp r2
            obtain ⟨pE, hpE⟩ := ihE _ _ _ hrec
            rw [hpE] at hw2
            refine ⟨pV ++ (w1 ++ ',' :: (w2 ++ pE)), ?_⟩
            simp [hpV, hw1, hw2, List.append_assoc]
          · cases h
        · rename_i r2 hbrack
          injection h with hh
          obtain ⟨hh1, hh2⟩ := Prod.mk.inj hh
          subst hh2
          obtain ⟨pV, hpV⟩ := ihV _ _ _ hval
          obtain ⟨w1, hw1, _⟩ := skipJsonWs_decomp r1
          rw [hbrack] at hw1
          refine ⟨pV ++ (w1 ++ [']']), ?_⟩
          simp [hpV, hw1, List.append_assoc]
        · cases h
      · cases h

theorem parseJsonValue_obj_shape (fuel : ℕ) (cs : List Char) (kvs : List (String × Json))
    (rest : List Char) (h : parseJsonValue fuel cs = some (.obj kvs, rest)) :
    ∃ cs', cs = '\x7b' :: cs' := by
  match fuel with
  | 0 => cases h
  | f + 1 =>
    unfold parseJsonValue at h
    split at h
    · cases h
    · injection h with hh
      obtain ⟨hh1, hh2⟩ := Prod.mk.inj hh
      exact Json.noConfusion hh1
    · injection h with hh
      obtain ⟨hh1, hh2⟩ := Prod.mk.inj hh
      exact Json.noConfusion hh1
    · injection h with hh
      obtain ⟨hh1, hh2⟩ := Prod.mk.inj hh
      exact Json.noConfusion hh1
    · split at h
      · injection h with hh
        obtain ⟨hh1, hh2⟩ := Prod.mk.inj hh
        exact Json.noConfusion hh1
      · cases h
    · rename_i n9 rest0 hfq
      exact ⟨rest0, rfl⟩
    · split at h
      · injection h with hh
        obtain ⟨hh1, hh2⟩ := Prod.mk.inj hh
        exact Json.noConfusion hh1
      · split at h
        · injection h with hh
          obtain ⟨hh1, hh2⟩ := Prod.mk.inj hh
          exact Json.noConfusion hh1
        · cases h
    · split at h
      · injection h with hh
        obtain ⟨hh1, hh2⟩ := Prod.mk.inj hh
        exact Json.noConfusion hh1
      · cases h

set_option maxHeartbeats 1600000 in
theorem parseJson_endsBrace (fuel : ℕ) :
    (∀ cs kvs rest, parseJsonValue fuel cs = some (.obj kvs, rest) →
      ∃ pre, cs = pre ++ '\x7d' :: rest) ∧
    (∀ cs kvs rest, parseJsonMembers fuel cs = some (kvs, rest) →
      ∃ pre, cs = pre ++ '\x7d' :: rest) := by
  induction fuel with
  | zero =>
    refine ⟨?_, ?_⟩ <;> intro cs a rest h <;> cases h
  | succ f ih =>
    obtain ⟨ihV, ihM⟩ := ih
    refine ⟨?_, ?_⟩
    · intro cs kvs rest h
      unfold parseJsonValue at h
      split at h
      · cases h
      · injection h with hh
        obtain ⟨hh1, hh2⟩ := Prod.mk.inj hh
        exact Json.noConfusion hh1
      · injection h with hh
        obtain ⟨hh1, hh2⟩ := Prod.mk.inj hh
        exact Json.noConfusion hh1
      · injection h with hh
        obtain ⟨hh1, hh2⟩ := Prod.mk.inj hh
        exact Json.noConfusion hh1
      · split at h
        · injection h with hh
          obtain ⟨hh1, hh2⟩ := Prod.mk.inj hh
          exact Json.noConfusion hh1
        · cases h
      · rename_i n9 rest0 hfq
        obtain rfl := Nat.succ.inj hfq
        obtain ⟨w, hw, hws⟩ := skipJsonWs_decomp rest0
        split at h
        · rename_i r9 heq
          injection h with hh
          obtain ⟨hh1, hh2⟩ := Prod.mk.inj hh
          subst hh2
          rw [heq] at hw
          exact ⟨'\x7b' :: w, by simp [hw]⟩
        · split at h
          · rename_i kvs9 r9 heq
            injection h with hh
            obtain ⟨hh1, hh2⟩ := Prod.mk.inj hh
            subst hh2
            obtain ⟨pm, hpm⟩ := ihM _ _ _ heq
            rw [hpm] at hw
            exact ⟨'\x7b' :: (w ++ pm), by simp [hw]⟩
          · cases h
      · split at h
        · injection h with hh
          obtain ⟨hh1, hh2⟩ := Prod.mk.inj hh
          exact Json.noConfusion hh1
        · split at h
          · injection h with hh
            obtain ⟨hh1, hh2⟩ := Prod.mk.inj hh
            exact Json.noConfusion hh1
          · cases h
      · split at h
        · injection h with hh
          obtain ⟨hh1, hh2⟩ := Prod.mk.inj hh
          exact Json.noConfusion hh1
        · cases h
    · intro cs kvs rest h
      unfold parseJsonMembers at h
      split at h
      · cases h
      · rename_i n9 rest0 hfq
        obtain rfl := Nat.succ.inj hfq
        split at h
        · rename_i key r1 hkey
          split at h
          · rename_i r2 hcolon
            split at h
            · rename_i v r3 hval
              split at h
              · rename_i r4 hcomma
                split at h
                · rename_i kvs9 r5 hrec
                  injection h with hh
                  obtain ⟨hh1, hh2⟩ := Prod.mk.inj hh
                  subst hh2
                  obtain ⟨pS, hpS⟩ := parseStringBody_consume rest0.length rest0 le_rfl _ _ hkey
                  obtain ⟨w1, hw1, _⟩ := skipJsonWs_decomp r1
                  rw [hcolon] at hw1
                  obtain ⟨w2, hw2, _⟩ := skipJsonWs_decomp r2
                  obtain ⟨pV, hpV⟩ := (parseJson_consume f).1 _ _ _ hval
                  rw [hpV] at hw2
                  obtain ⟨w3, hw3, _⟩ := skipJsonWs_decomp r3
                  rw [hcomma] at hw3
                  obtain ⟨w4, hw4, _⟩ := skipJsonWs_decomp r4
                  obtain ⟨pM, hpM⟩ := ihM _ _ _ hrec
                  rw [hpM] at hw4
                  refine ⟨'"' :: (pS ++ (w1 ++ ':' :: (w2 ++ (pV ++ (w3 ++ ',' :: (w4 ++ pM)))))), ?_⟩
                  simp [hpS, hw1, hw2, hw3, hw4, List.append_assoc]
                · cases h
              · rename_i r4 hbrace
                injection h with hh
                obtain ⟨hh1, hh2⟩ := Prod.mk.inj hh
                subst hh2
                obtain ⟨pS, hpS⟩ := parseStringBody_consume rest0.length rest0 le_rfl _ _ hkey
                obtain ⟨w1, hw1, _⟩ := skipJsonWs_decomp r1
                rw [hcolon] at hw1
                obtain ⟨w2, hw2, _⟩ := skipJsonWs_decomp r2
                obtain ⟨pV, hpV⟩ := (parseJson_consume f).1 _ _ _ hval
                rw [hpV] at hw2
                obtain ⟨w3, hw3, _⟩ := skipJsonWs_decomp r3
                rw [hbrace] at hw3
                refine ⟨'"' :: (pS ++ (w1 ++ ':' :: (w2 ++ (pV ++ w3)))), ?_⟩
                simp [hpS, hw1, hw2, hw3, List.append_assoc]
              · cases h
            · cases h
          · cases h
        · cases h
      · cases h

/-! ## C5 lemmas: trimming, candidate scan, find/rfind, slices -/

theorem trimJsonWs_eq_self (c1 c2 : Char) (l : List Char)
    (h1 : isJsonWs c1 = false) (h2 : isJsonWs c2 = false) :
    trimJsonWs (c1 :: (l ++ [c2])) = c1 :: (l ++ [c2]) := by
  have hd : (c1 :: (l ++ [c2])).dropWhile isJsonWs = c1 :: (l ++ [c2]) := by
    simp [List.dropWhile_cons, h1]
  have hrev : (c1 :: (l ++ [c2])).reverse = c2 :: (l.reverse ++ [c1]) := by
    simp
  have hd2 : (c2 :: (l.reverse ++ [c1])).dropWhile isJsonWs = c2 :: (l.reverse ++ [c1]) := by
    simp [List.dropWhile_cons, h2]
  simp [trimJsonWs, hd, hrev, hd2]

theorem trimJsonWs_cons_decomp (c : Char) (l : List Char) (hc : isJsonWs c = false) :
    ∃ w2, c :: l = trimJsonWs (c :: l) ++ w2 ∧ ∀ d ∈ w2, isJsonWs d = true := by
  have hd : (c :: l).dropWhile isJsonWs = c :: l := by
    simp [List.dropWhile_cons, hc]
  refine ⟨((c :: l).reverse.takeWhile isJsonWs).reverse, ?_, ?_⟩
  · rw [trimJsonWs, hd]
    rw [← List.reverse_append]
    rw [List.takeWhile_append_dropWhile]
    simp
  · intro d hd2
    rw [List.mem_reverse] at hd2
    exact List.mem_takeWhile_imp hd2

theorem scanCandidates_eq_none_iff (cs : List Char) (s : ℕ) : ∀ n,
    scanCandidates cs s n = Option.none ↔
      ∀ m, 1 ≤ m → m ≤ n → jsonLoadsObj ⟨sliceCD cs s (s + m)⟩ = Option.none := by
  intro n
  induction n with
  | zero =>
    constructor
    · intro _ m h1 h2
      omega
    · intro _
      rfl
  | succ n ih =>
    have hdef : scanCandidates cs s (n + 1) =
        (match jsonLoadsObj ⟨sliceCD cs s (s + n + 1)⟩ with
         | some kvs => some kvs
         | Option.none => scanCandidates cs s n) := rfl
    constructor
    · intro h m h1 h2
      rw [hdef] at h
      cases htop : jsonLoadsObj ⟨sliceCD cs s (s + n + 1)⟩ with
      | some kvs =>
        rw [htop] at h
        cases h
      | none =>
        rw [htop] at h
        by_cases hm : m = n + 1
        · subst hm
          exact htop
        · exact (ih.mp h) m h1 (by omega)
    · intro hall
      rw [hdef]
      have htop : jsonLoadsObj ⟨sliceCD cs s (s + n + 1)⟩ = Option.none :=
        hall (n + 1) (by omega) (by omega)
      rw [htop]
      exact ih.mpr (fun m h1 h2 => hall m h1 (by omega))

theorem scanCandidates_eq_some (cs : List Char) (s : ℕ) : ∀ n (kvs : List (String × Json)),
    scanCandidates cs s n = some kvs →
      ∃ m, 1 ≤ m ∧ m ≤ n ∧ jsonLoadsObj ⟨sliceCD cs s (s + m)⟩ = some kvs ∧
        ∀ m', m < m' → m' ≤ n → jsonLoadsObj ⟨sliceCD cs s (s + m')⟩ = Option.none := by
  intro n
  induction n with
  | zero =>
    intro kvs h
    cases h
  | succ n ih =>
    intro kvs h
    have hdef : scanCandidates cs s (n + 1) =
        (match jsonLoadsObj ⟨sliceCD cs s (s + n + 1)⟩ with
         | some kvs => some kvs
         | Option.none => scanCandidates cs s n) := rfl
    rw [hdef] at h
    cases htop : jsonLoadsObj ⟨sliceCD cs s (s + n + 1)⟩ with
    | some kvs2 =>
      rw [htop] at h
      injection h with hh
      subst hh
      refine ⟨n + 1, by omega, le_rfl, htop, ?_⟩
      intro m' hm1 hm2
      omega
    | none =>
      rw [htop] at h
      obtain ⟨m, hm1, hm2, hm3, hm4⟩ := ih kvs h
      refine ⟨m, hm1, by omega, hm3, ?_⟩
      intro m' h1 h2
      by_cases hm' : m' = n + 1
      · subst hm'
        exact htop
      · exact hm4 m' h1 (by omega)

theorem scanCandidates_of_forall (cs : List Char) (s : ℕ) : ∀ n (kvs : List (String × Json)),
    (∃ m, 1 ≤ m ∧ m ≤ n ∧ jsonLoadsObj ⟨sliceCD cs s (s + m)⟩ = some kvs) →
    (∀ m kvs2, 1 ≤ m → m ≤ n → jsonLoadsObj ⟨sliceCD cs s (s + m)⟩ = some kvs2 → kvs2 = kvs) →
    scanCandidates cs s n = some kvs := by
  intro n
  induction n with
  | zero =>
    rintro kvs ⟨m, h1, h2, _⟩ _
    omega
  | succ n ih =>
    rintro kvs ⟨m, h1, h2, h3⟩ huniq
    have hdef : scanCandidates cs s (n + 1) =
        (match jsonLoadsObj ⟨sliceCD cs s (s + n + 1)⟩ with
         | some kvs => some kvs
         | Option.none => scanCandidates cs s n) := rfl
    rw [hdef]
    cases htop : jsonLoadsObj ⟨sliceCD cs s (s + n + 1)⟩ with
    | some kvs2 =>
      have : kvs2 = kvs := huniq (n + 1) kvs2 (by omega) (by omega) htop
      rw [this]
    | none =>
      have hmn : m ≤ n := by
        by_contra hcon
        have : m = n + 1 := by omega
        subst this
        have h3x : jsonLoadsObj ⟨sliceCD cs s (s + n + 1)⟩ = some kvs := h3
        rw [h3x] at htop
        cases htop
      exact ih kvs ⟨m, h1, hmn, h3⟩ (fun m kvs2 u1 u2 u3 => huniq m kvs2 u1 (by omega) u3)

theorem pyFindChar_getElem (cs : List Char) (c : Char) (i : ℕ)
    (h : pyFindChar cs c = some i) : cs[i]? = some c := by
  rw [pyFindChar] at h
  rw [List.findIdx?_eq_some_iff_getElem] at h
  obtain ⟨hlt, hp, _⟩ := h
  rw [List.getElem?_eq_some_iff]
  exact ⟨hlt, by simpa using hp⟩

theorem pyRFindChar_lt (cs : List Char) (c : Char) (e : ℕ)
    (h : pyRFindChar cs c = some e) : e < cs.length := by
  rw [pyRFindChar] at h
  cases hk : cs.reverse.findIdx? (· = c) with
  | none =>
    rw [hk] at h
    cases h
  | some k =>
    rw [hk] at h
    injection h with hh
    have hne : cs.reverse ≠ [] := by
      intro hnil
      rw [hnil] at hk
      cases hk
    have : 0 < cs.length := by
      cases cs with
      | nil => exact absurd rfl hne
      | cons a l => simp
    omega

theorem sliceCD_length (cs : List Char) (s j : ℕ) (h : j < cs.length) :
    (sliceCD cs s j).length = j + 1 - s := by
  rw [sliceCD, List.length_drop, List.length_take]
  omega

theorem sliceCD_getElem (cs : List Char) (s j i : ℕ) (h : s + i ≤ j) :
    (sliceCD cs s j)[i]? = cs[s + i]? := by
  rw [sliceCD, List.getElem?_drop, List.getElem?_take]
  rw [if_pos (by omega)]

theorem sliceCD_take_eq (cs : List Char) (s j1 j2 : ℕ) (hs : s ≤ j1) (h : j1 ≤ j2) :
    sliceCD cs s j1 = (sliceCD cs s j2).take (j1 + 1 - s) := by
  rw [sliceCD, sliceCD]
  rw [List.take_drop]
  rw [List.take_take]
  have hmin : min (s + (j1 + 1 - s)) (j2 + 1) = j1 + 1 := by
    rw [Nat.min_eq_left (by omega)]
    omega
  rw [hmin]

theorem jsonLoadsObj_inv (s : String) (kvs : List (String × Json))
    (h : jsonLoadsObj s = some kvs) :
    parseJsonValue ((trimJsonWs s.data).length + 1) (trimJsonWs s.data) =
      some (.obj kvs, []) := by
  unfold jsonLoadsObj at h
  split at h
  · rename_i kvs2 hL
    injection h with hh
    subst hh
    simp only [jsonLoads] at hL
    split at hL
    · rename_i v hv
      injection hL with hh2
      subst hh2
      exact hv
    · cases hL
  · cases h

theorem jsonLoadsObj_of_parse (s : String) (kvs : List (String × Json))
    (h : parseJsonValue ((trimJsonWs s.data).length + 1) (trimJsonWs s.data) =
      some (.obj kvs, [])) : jsonLoadsObj s = some kvs := by
  simp only [jsonLoadsObj, jsonLoads]
  rw [h]

set_option maxHeartbeats 1000000 in
theorem candidate_bridge (cs : List Char) (s idx : ℕ) (kvs : List (String × Json))
    (hs : cs[s]? = some '\x7b') (hsi : s < idx) (hie : idx < cs.length)
    (h : jsonLoadsObj ⟨sliceCD cs s idx⟩ = some kvs) :
    ∃ idxp, s < idxp ∧ idxp ≤ idx ∧ cs[idxp]? = some '\x7d' ∧
      jsonLoadsObj ⟨sliceCD cs s idxp⟩ = some kvs ∧
      ∀ j d, idxp < j → j ≤ idx → cs[j]? = some d → isJsonWs d = true := by
  have hlen : (sliceCD cs s idx).length = idx + 1 - s := sliceCD_length cs s idx hie
  have hhead : (sliceCD cs s idx)[0]? = some '\x7b' := by
    rw [sliceCD_getElem cs s idx 0 (by omega)]
    simpa using hs
  obtain ⟨cand0, hcand⟩ : ∃ cand0, sliceCD cs s idx = '\x7b' :: cand0 := by
    cases hc : sliceCD cs s idx with
    | nil =>
      rw [hc] at hhead
      cases hhead
    | cons a l =>
      rw [hc] at hhead
      simp at hhead
      exact ⟨l, by rw [hhead]⟩
  have hparse : parseJsonValue ((trimJsonWs (sliceCD cs s idx)).length + 1)
      (trimJsonWs (sliceCD cs s idx)) = some (.obj kvs, []) := jsonLoadsObj_inv _ _ h
  obtain ⟨w2, hw2, hw2ws⟩ := trimJsonWs_cons_decomp '\x7b' cand0 (by decide)
  rw [← hcand] at hw2
  obtain ⟨core0, hcore0⟩ := parseJsonValue_obj_shape _ _ _ _ hparse
  obtain ⟨pre, hpre⟩ :=
    (parseJson_endsBrace ((trimJsonWs (sliceCD cs s idx)).length + 1)).1 _ _ _ hparse
  obtain ⟨mid, hmid⟩ : ∃ mid, pre = '\x7b' :: mid := by
    cases pre with
    | nil =>
      rw [hcore0] at hpre
      simp at hpre
    | cons a l =>
      rw [hcore0, List.cons_append] at hpre
      injection hpre with h1 h2
      exact ⟨l, by rw [h1]⟩
  subst hmid
  have hcoreq : trimJsonWs (sliceCD cs s idx) = '\x7b' :: (mid ++ ['\x7d']) := by
    rw [hpre]
    simp
  have htrimcore : trimJsonWs (trimJsonWs (sliceCD cs s idx)) =
      trimJsonWs (sliceCD cs s idx) := by
    rw [hcoreq]
    exact trimJsonWs_eq_self '\x7b' '\x7d' mid (by decide) (by decide)
  have hcorelen : (trimJsonWs (sliceCD cs s idx)).length = mid.length + 2 := by
    rw [hcoreq]
    simp
  have hlensum : (sliceCD cs s idx).length =
      (trimJsonWs (sliceCD cs s idx)).length + w2.length := by
    have hcg := congrArg List.length hw2
    simpa using hcg
  refine ⟨s + (mid.length + 1), by omega, by omega, ?_, ?_, ?_⟩
  · have hgc : (sliceCD cs s idx)[mid.length + 1]? = cs[s + (mid.length + 1)]? :=
      sliceCD_getElem cs s idx (mid.length + 1) (by omega)
    rw [← hgc, hw2, List.getElem?_append_left (by omega), hcoreq]
    rw [show '\x7b' :: (mid ++ ['\x7d']) = ('\x7b' :: mid) ++ ['\x7d'] from rfl]
    rw [show mid.length + 1 = ('\x7b' :: mid).length from by simp]
    exact List.getElem?_concat_length _ _
  · have hslice : sliceCD cs s (s + (mid.length + 1)) = trimJsonWs (sliceCD cs s idx) := by
      rw [sliceCD_take_eq cs s (s + (mid.length + 1)) idx (by omega) (by omega)]
      rw [show s + (mid.length + 1) + 1 - s = mid.length + 2 from by omega]
      conv_lhs => rw [hw2]
      rw [List.take_left' (by rw [hcorelen])]
    rw [hslice]
    apply jsonLoadsObj_of_parse
    have hdata : (String.mk (trimJsonWs (sliceCD cs s idx))).data =
        trimJsonWs (sliceCD cs s idx) := rfl
    rw [hdata, htrimcore]
    exact hparse
  · intro j d hj1 hj2 hget
    have hgc : (sliceCD cs s idx)[j - s]? = cs[j]? := by
      rw [sliceCD_getElem cs s idx (j - s) (by omega)]
      congr 1
      omega
    rw [← hgc, hw2] at hget
    rw [List.getElem?_append_right (by omega)] at hget
    exact hw2ws d (List.getElem?_mem hget)

theorem scanCandidates_first_hit (cs : List Char) (s : ℕ) : ∀ n (m0 : ℕ)
    (kvs : List (String × Json)), 1 ≤ m0 → m0 ≤ n →
    jsonLoadsObj ⟨sliceCD cs s (s + m0)⟩ = some kvs →
    (∀ m' kvs2, m0 < m' → m' ≤ n → jsonLoadsObj ⟨sliceCD cs s (s + m')⟩ = some kvs2 →
      kvs2 = kvs) →
    scanCandidates cs s n = some kvs := by
  intro n
  induction n with
  | zero =>
    intro m0 kvs h1 h2 _ _
    omega
  | succ n ih =>
    intro m0 kvs h1 h2 h3 habove
    have hdef : scanCandidates cs s (n + 1) =
        (match jsonLoadsObj ⟨sliceCD cs s (s + n + 1)⟩ with
         | some kvs => some kvs
         | Option.none => scanCandidates cs s n) := rfl
    rw [hdef]
    cases htop : jsonLoadsObj ⟨sliceCD cs s (s + n + 1)⟩ with
    | some kvs2 =>
      by_cases hm : m0 = n + 1
      · subst hm
        have h3x : jsonLoadsObj ⟨sliceCD cs s (s + n + 1)⟩ = some kvs := h3
        rw [h3x] at htop
        injection htop with hh
        rw [hh]
      · have hx : jsonLoadsObj ⟨sliceCD cs s (s + (n + 1))⟩ = some kvs2 := htop
        have : kvs2 = kvs := habove (n + 1) kvs2 (by omega) le_rfl hx
        rw [this]
    | none =>
      have hm : m0 ≤ n := by
        by_contra hcon
        have : m0 = n + 1 := by omega
        subst this
        have h3x : jsonLoadsObj ⟨sliceCD cs s (s + n + 1)⟩ = some kvs := h3
        rw [h3x] at htop
        cases htop
      exact ih m0 kvs h1 hm h3 (fun m' kvs2 u1 u2 u3 => habove m' kvs2 u1 (by omega) u3)

set_option maxHeartbeats 1000000 in
theorem extract_reduce_find_none (text : String)
    (hdirect : jsonLoadsObj (stripFence text) = Option.none)
    (hfind : pyFindChar (stripFence text).data '\x7b' = Option.none) :
    extract_json_object text = .error () := by
  simp only [extract_json_object, hdirect, hfind]

set_option maxHeartbeats 1000000 in
theorem extract_reduce_rfind_none (text : String) (s : ℕ)
    (hdirect : jsonLoadsObj (stripFence text) = Option.none)
    (hfind : pyFindChar (stripFence text).data '\x7b' = some s)
    (hrf : pyRFindChar (stripFence text).data '\x7d' = Option.none) :
    extract_json_object text = .error () := by
  simp only [extract_json_object, hdirect, hfind, hrf]

set_option maxHeartbeats 1000000 in
theorem extract_reduce_le (text : String) (s e : ℕ)
    (hdirect : jsonLoadsObj (stripFence text) = Option.none)
    (hfind : pyFindChar (stripFence text).data '\x7b' = some s)
    (hrf : pyRFindChar (stripFence text).data '\x7d' = some e)
    (hle : e ≤ s) :
    extract_json_object text = .error () := by
  simp only [extract_json_object, hdirect, hfind, hrf]
  rw [if_pos hle]

set_option maxHeartbeats 1000000 in
theorem extract_reduce_scan_some (text : String) (s e : ℕ) (kvs : List (String × Json))
    (hdirect : jsonLoadsObj (stripFence text) = Option.none)
    (hfind : pyFindChar (stripFence text).data '\x7b' = some s)
    (hrf : pyRFindChar (stripFence text).data '\x7d' = some e)
    (hlt : s < e)
    (hscan : scanCandidates (stripFence text).data s (e - s) = some kvs) :
    extract_json_object text = .ok kvs := by
  simp only [extract_json_object, hdirect, hfind, hrf]
  rw [if_neg (by omega), hscan]

set_option maxHeartbeats 1000000 in
theorem extract_reduce_scan_none (text : String) (s e : ℕ)
    (hdirect : jsonLoadsObj (stripFence text) = Option.none)
    (hfind : pyFindChar (stripFence text).data '\x7b' = some s)
    (hrf : pyRFindChar (stripFence text).data '\x7d' = some e)
    (hlt : s < e)
    (hscan : scanCandidates (stripFence text).data s (e - s) = Option.none) :
    extract_json_object text = .error () := by
  simp only [extract_json_object, hdirect, hfind, hrf]
  rw [if_neg (by omega), hscan]

set_option maxHeartbeats 8000000 in
theorem extract_ok_characterization (text : String)
    (hdirect : jsonLoadsObj (stripFence text) = Option.none)
    (kvs : List (String × Json)) :
    extract_json_object text = .ok kvs ↔
      ∃ s e idx, pyFindChar (stripFence text).data '\x7b' = some s ∧
        pyRFindChar (stripFence text).data '\x7d' = some e ∧
        s < idx ∧ idx ≤ e ∧
        (stripFence text).data[idx]? = some '\x7d' ∧
        jsonLoadsObj ⟨sliceCD (stripFence text).data s idx⟩ = some kvs ∧
        ∀ j, idx < j → j ≤ e → (stripFence text).data[j]? = some '\x7d' →
          jsonLoadsObj ⟨sliceCD (stripFence text).data s j⟩ = Option.none := by
  constructor
  · intro h
    cases hfind : pyFindChar (stripFence text).data '\x7b' with
    | none =>
      rw [extract_reduce_find_none text hdirect hfind] at h
      cases h
    | some s =>
      cases hrf : pyRFindChar (stripFence text).data '\x7d' with
      | none =>
        rw [extract_reduce_rfind_none text s hdirect hfind hrf] at h
        cases h
      | some e =>
        by_cases hle : e ≤ s
        · rw [extract_reduce_le text s e hdirect hfind hrf hle] at h
          cases h
        · cases hscan : scanCandidates (stripFence text).data s (e - s) with
          | none =>
            rw [extract_reduce_scan_none text s e hdirect hfind hrf (by omega) hscan] at h
            cases h
          | some kvs2 =>
            rw [extract_reduce_scan_some text s e kvs2 hdirect hfind hrf (by omega) hscan] at h
            injection h with hh
            subst hh
            obtain ⟨m, hm1, hm2, hm3, hm4⟩ :=
              scanCandidates_eq_some (stripFence text).data s (e - s) kvs2 hscan
            have hsD : (stripFence text).data[s]? = some '\x7b' :=
              pyFindChar_getElem (stripFence text).data '\x7b' s hfind
            have heD : e < (stripFence text).data.length :=
              pyRFindChar_lt (stripFence text).data '\x7d' e hrf
            obtain ⟨idxp, hp1, hp2, hp3, hp4, hp5⟩ :=
              candidate_bridge (stripFence text).data s (s + m) kvs2 hsD (by omega)
                (by omega) hm3
            refine ⟨s, e, idxp, rfl, rfl, hp1, by omega, hp3, hp4, ?_⟩
            intro j hj1 hj2 hjb
            by_cases hjm : j ≤ s + m
            · have hws := hp5 j '\x7d' hj1 hjm hjb
              exact absurd hws (by decide)
            · have hnone := hm4 (j - s) (by omega) (by omega)
              rw [show s + (j - s) = j from by omega] at hnone
              exact hnone
  · rintro ⟨s, e, idx, hfind, hrf, hsidx, hidxe, hbrace, hload, hmax⟩
    have hsD : (stripFence text).data[s]? = some '\x7b' :=
      pyFindChar_getElem (stripFence text).data '\x7b' s hfind
    have heD : e < (stripFence text).data.length :=
      pyRFindChar_lt (stripFence text).data '\x7d' e hrf
    have hscan : scanCandidates (stripFence text).data s (e - s) = some kvs := by
      apply scanCandidates_first_hit (stripFence text).data s (e - s) (idx - s) kvs
        (by omega) (by omega)
      · rw [show s + (idx - s) = idx from by omega]
        exact hload
      · intro m' kvs2 hm'1 hm'2 hm'3
        obtain ⟨idx2p, hq1, hq2, hq3, hq4, hq5⟩ :=
          candidate_bridge (stripFence text).data s (s + m') kvs2 hsD (by omega)
            (by omega) hm'3
        rcases lt_trichotomy idx2p idx with hlt2 | heq2 | hgt2
        · have hws := hq5 idx '\x7d' hlt2 (by omega) hbrace
          exact absurd hws (by decide)
        · rw [heq2] at hq4
          rw [hload] at hq4
          injection hq4 with hh
          exact hh.symm
        · have hnone := hmax idx2p hgt2 (by omega) hq3
          rw [hq4] at hnone
          cases hnone
    exact extract_reduce_scan_some text s e kvs hdirect hfind hrf (by omega) hscan

set_option maxHeartbeats 1600000 in
theorem extract_error_characterization (text : String)
    (hdirect : jsonLoadsObj (stripFence text) = Option.none) :
    extract_json_object text = .error () ↔
      ¬ ∃ s e idx kvs, pyFindChar (stripFence text).data '\x7b' = some s ∧
        pyRFindChar (stripFence text).data '\x7d' = some e ∧
        s < idx ∧ idx ≤ e ∧
        (stripFence text).data[idx]? = some '\x7d' ∧
        jsonLoadsObj ⟨sliceCD (stripFence text).data s idx⟩ = some kvs := by
  constructor
  · rintro herr ⟨s, e, idx, kvs, hfind, hrf, hsidx, hidxe, hbrace, hload⟩
    cases hscan : scanCandidates (stripFence text).data s (e - s) with
    | some kvs2 =>
      have hok := extract_reduce_scan_some text s e kvs2 hdirect hfind hrf (by omega) hscan
      rw [herr] at hok
      cases hok
    | none =>
      have hall := (scanCandidates_eq_none_iff (stripFence text).data s (e - s)).mp hscan
      have hfail := hall (idx - s) (by omega) (by omega)
      rw [show s + (idx - s) = idx from by omega] at hfail
      rw [hload] at hfail
      cases hfail
  · intro hnex
    cases hfind : pyFindChar (stripFence text).data '\x7b' with
    | none => exact extract_reduce_find_none text hdirect hfind
    | some s =>
      cases hrf : pyRFindChar (stripFence text).data '\x7d' with
      | none => exact extract_reduce_rfind_none text s hdirect hfind hrf
      | some e =>
        by_cases hle : e ≤ s
        · exact extract_reduce_le text s e hdirect hfind hrf hle
        · cases hscan : scanCandidates (stripFence text).data s (e - s) with
          | none =>
            exact extract_reduce_scan_none text s e hdirect hfind hrf (by omega) hscan
          | some kvs =>
            exfalso
            apply hnex
            obtain ⟨m, hm1, hm2, hm3, hm4⟩ :=
              scanCandidates_eq_some (stripFence text).data s (e - s) kvs hscan
            have hsD : (stripFence text).data[s]? = some '\x7b' :=
              pyFindChar_getElem (stripFence text).data '\x7b' s hfind
            have heD : e < (stripFence text).data.length :=
              pyRFindChar_lt (stripFence text).data '\x7d' e hrf
            obtain ⟨idxp, hp1, hp2, hp3, hp4, _⟩ :=
              candidate_bridge (stripFence text).data s (s + m) kvs hsD (by omega)
                (by omega) hm3
            exact ⟨s, e, idxp, kvs, hfind, hrf, hp1, by omega, hp3, hp4⟩

/-- C5: JSON extraction. The text `'\x7b"a":1\x7d -- done'` recovers the object
`\x7b"a": 1\x7d`. For any text whose direct parse (after fence stripping) fails,
the extractor succeeds with object `kvs` exactly when, taking `s` the first
`\x7b` and `e` the last `\x7d` of the cleaned text, some candidate slice
`cleaned[s : idx + 1]` ending at a `\x7d` at position `idx` in `(s, e]` parses to
the object `kvs` and every longer `\x7d`-ending candidate up to `e` fails to
parse; and it raises `ValidationError` exactly when no `\x7b`/`\x7d` candidate
slice parses to an object (including when no such pair exists). -/
theorem C5_json_extraction (text : String)
    (hdirect : jsonLoadsObj (stripFence text) = Option.none) :
    extract_json_object "\x7b\"a\":1\x7d -- done" = .ok [("a", Json.num 1)] ∧
    (∀ kvs, extract_json_object text = .ok kvs ↔
      ∃ s e idx, pyFindChar (stripFence text).data '\x7b' = some s ∧
        pyRFindChar (stripFence text).data '\x7d' = some e ∧
        s < idx ∧ idx ≤ e ∧
        (stripFence text).data[idx]? = some '\x7d' ∧
        jsonLoadsObj ⟨sliceCD (stripFence text).data s idx⟩ = some kvs ∧
        ∀ j, idx < j → j ≤ e → (stripFence text).data[j]? = some '\x7d' →
          jsonLoadsObj ⟨sliceCD (stripFence text).data s j⟩ = Option.none) ∧
    (extract_json_object text = .error () ↔
      ¬ ∃ s e idx kvs, pyFindChar (stripFence text).data '\x7b' = some s ∧
        pyRFindChar (stripFence text).data '\x7d' = some e ∧
        s < idx ∧ idx ≤ e ∧
        (stripFence text).data[idx]? = some '\x7d' ∧
        jsonLoadsObj ⟨sliceCD (stripFence text).data s idx⟩ = some kvs) :=
  ⟨by with_unfolding_all rfl,
   fun kvs => extract_ok_characterization text hdirect kvs,
   extract_error_characterization text hdirect⟩

theorem C5_witness :
    jsonLoadsObj (stripFence "no braces") = Option.none ∧
    extract_json_object "\x7b\"a\":1\x7d -- done" = .ok [("a", Json.num 1)] ∧
    extract_json_object "no braces" = .error () := by
  have hd : jsonLoadsObj (stripFence "no braces") = Option.none := by
    with_unfolding_all rfl
  have h := C5_json_extraction "no braces" hd
  refine ⟨hd, h.1, ?_⟩
  rw [h.2.2]
  rintro ⟨s, e, idx, kvs, hfind, _⟩
  rw [show pyFindChar (stripFence "no braces").data '\x7b' = Option.none from by
    with_unfolding_all rfl] at hfind
  cases hfind
